import Mathlib

/-!
Shallow embedding of `lib/test_system/fix_pdb_alignment.py` (function
`fix_pdb_alignment`).  A file is a list of lines; each line is a `List Char`
that still carries its trailing newline, exactly as Python's file iteration
yields it.  Numeric tokens are modelled exactly: a parsed decimal literal is
kept as a pair (mantissa, base-10 exponent), and Python's `"%w.df"`
formatting is modelled as exact round-half-even of the decimal value scaled
by `10^d`.  (Python first converts to an IEEE double and then rounds that
double; on the decimal literals exercised here the two agree.  The non-finite
inputs `inf`/`nan` and underscore digit separators accepted by Python's
`float` are outside the model.)
-/

namespace PdbAlign

/-- Whitespace as used by Python's `str.split()` (ASCII part). -/
def isWS (c : Char) : Bool :=
  c = ' ' || c = '\t' || c = '\n' || c = '\r' || c = '\x0b' || c = '\x0c'

/-- Worker for `pySplit`; `acc` holds the current token reversed. -/
def splitAux : List Char → List Char → List (List Char)
  | [], acc => if acc.isEmpty then [] else [acc.reverse]
  | c :: cs, acc =>
    if isWS c then
      if acc.isEmpty then splitAux cs [] else acc.reverse :: splitAux cs []
    else splitAux cs (c :: acc)

/-- Python's `line.split()`: split on runs of whitespace, dropping empties. -/
def pySplit (cs : List Char) : List (List Char) := splitAux cs []

/-- A run of `n` spaces. -/
def rep (n : ℕ) : List Char := List.replicate n ' '

/-- Python's `f"{s:>w}"` on a string: right-justify by left space padding. -/
def padLeft (s : List Char) (w : ℕ) : List Char := rep (w - s.length) ++ s

/-- Python's `f"{s:<w}"` on a string: left-justify by right space padding. -/
def padRight (s : List Char) (w : ℕ) : List Char := s ++ rep (w - s.length)

/-- `slice s k n`: the `n` characters of `s` starting at 0-based index `k`
(1-indexed columns `k+1 .. k+n`). -/
def slice (s : List Char) (k n : ℕ) : List Char := (s.drop k).take n

/-- Decimal digit character test. -/
def isDigitCh (c : Char) : Bool := '0' ≤ c && c ≤ '9'

/-- Value of a digit character. -/
def digitVal (c : Char) : ℕ := c.toNat - 48

/-- Decimal digit string to number. -/
def decToNat (ds : List Char) : ℕ := ds.foldl (fun a c => a * 10 + digitVal c) 0

/-- The character of one decimal digit. -/
def digitChar : ℕ → Char
  | 0 => '0' | 1 => '1' | 2 => '2' | 3 => '3' | 4 => '4'
  | 5 => '5' | 6 => '6' | 7 => '7' | 8 => '8' | _ => '9'

/-- Fueled decimal printer (big-endian digit characters; `[]` for `0`). -/
def natToDecAux : ℕ → ℕ → List Char
  | 0, _ => []
  | fuel + 1, n =>
    if n = 0 then [] else natToDecAux fuel (n / 10) ++ [digitChar (n % 10)]

/-- Decimal representation of a natural number, no leading zeros. -/
def natToDec (n : ℕ) : List Char := if n = 0 then ['0'] else natToDecAux (n + 1) n

/-- Left-pad a digit string with zeros to length `d`. -/
def zpad (d : ℕ) (s : List Char) : List Char := List.replicate (d - s.length) '0' ++ s

/-- An exactly parsed decimal literal: value `m * 10 ^ e`. -/
structure DecLit where
  m : ℤ
  e : ℤ
deriving DecidableEq

/-- Exponent digits (no further sign), as in Python's float grammar. -/
def parseExpDigits (cs : List Char) : Option ℤ :=
  if cs.isEmpty then none
  else if cs.all isDigitCh then some ((decToNat cs : ℤ)) else none

/-- Optionally signed exponent. -/
def parseExpPart (cs : List Char) : Option ℤ :=
  match cs with
  | '+' :: r => parseExpDigits r
  | '-' :: r => (parseExpDigits r).map Neg.neg
  | _ => parseExpDigits cs

/-- Unsigned part of Python's `float()` grammar:
`digits [. digits] [e|E [sign] digits]`, with at least one digit before the
exponent marker. -/
def parsePos (cs : List Char) : Option DecLit :=
  let ip := cs.takeWhile isDigitCh
  let r1 := cs.dropWhile isDigitCh
  match r1 with
  | [] => if ip.isEmpty then none else some ⟨(decToNat ip : ℤ), 0⟩
  | c :: r2 =>
    if c = '.' then
      let fp := r2.takeWhile isDigitCh
      let r3 := r2.dropWhile isDigitCh
      if ip.isEmpty && fp.isEmpty then none
      else
        match r3 with
        | [] =>
          some ⟨(decToNat ip : ℤ) * (10 : ℤ) ^ fp.length + (decToNat fp : ℤ),
                -(fp.length : ℤ)⟩
        | c2 :: r4 =>
          if c2 = 'e' || c2 = 'E' then
            (parseExpPart r4).map (fun k =>
              ⟨(decToNat ip : ℤ) * (10 : ℤ) ^ fp.length + (decToNat fp : ℤ),
               k - (fp.length : ℤ)⟩)
          else none
    else if (c = 'e' || c = 'E') && !ip.isEmpty then
      (parseExpPart r2).map (fun k => ⟨(decToNat ip : ℤ), k⟩)
    else none

/-- Python's `float(token)` on a whitespace-free token, as an exact decimal. -/
def parsePy (cs : List Char) : Option DecLit :=
  match cs with
  | [] => none
  | c :: r =>
    if c = '+' then parsePos r
    else if c = '-' then (parsePos r).map (fun v => ⟨-v.m, v.e⟩)
    else parsePos (c :: r)

/-- Round-half-even of `m / 10 ^ k` (exact rational division). -/
def roundHalfEvenDiv (m : ℤ) (k : ℕ) : ℤ :=
  let p : ℤ := (10 : ℤ) ^ k
  let q := Int.ediv m p
  let r := Int.emod m p
  if 2 * r < p then q
  else if p < 2 * r then q + 1
  else if Int.emod q 2 = 0 then q else q + 1

/-- Round-half-even of `v * 10 ^ d`, the integer printed by `"%.df"`. -/
def roundScaled (v : DecLit) (d : ℕ) : ℤ :=
  let t : ℤ := v.e + (d : ℤ)
  if 0 ≤ t then v.m * (10 : ℤ) ^ t.toNat else roundHalfEvenDiv v.m (-t).toNat

/-- The unpadded text of `"%.df" % v`: sign, integer part, point, `d`
fraction digits. -/
def fmtBody (v : DecLit) (d : ℕ) : List Char :=
  let n := roundScaled v d
  let a := n.natAbs / 10 ^ d
  let f := n.natAbs % 10 ^ d
  let core := if d = 0 then natToDec a else natToDec a ++ '.' :: zpad d (natToDec f)
  if n < 0 then '-' :: core else core

/-- Python's `f"{v:w.df}"`: the body right-justified in width `w`. -/
def fmtFixed (v : DecLit) (w d : ℕ) : List Char := padLeft (fmtBody v d) w

/-- The fixed-width output line built from the twelve fields
(`formatted_line` in the source, with the five numerics already parsed). -/
def fieldsLine (rt an nm rn ch rs : List Char) (vx vy vz vo vb : DecLit)
    (el : List Char) : List Char :=
  padRight rt 6 ++ padLeft an 5 ++ [' '] ++ padRight nm 4 ++ [' '] ++
  padLeft rn 3 ++ [' '] ++ padLeft ch 1 ++ padLeft rs 4 ++ rep 4 ++
  fmtFixed vx 8 3 ++ fmtFixed vy 8 3 ++ fmtFixed vz 8 3 ++
  fmtFixed vo 6 2 ++ fmtFixed vb 6 2 ++ rep 10 ++ padLeft el 2 ++ ['\n']

/-- The reformatting branch of the source: destructure the token list,
parse the five numeric fields (`none` models the uncaught `ValueError`),
and emit the fixed-width line.  A 12th token, when present, is the element
symbol; later tokens are ignored. -/
def formatParts (parts : List (List Char)) : Option (List Char) :=
  match parts with
  | rt :: an :: nm :: rn :: ch :: rs :: xs :: ys :: zs :: os :: bs :: rest =>
    match parsePy xs, parsePy ys, parsePy zs, parsePy os, parsePy bs with
    | some vx, some vy, some vz, some vo, some vb =>
      some (fieldsLine rt an nm rn ch rs vx vy vz vo vb (rest.headD []))
    | _, _, _, _, _ => none
  | _ => none

/-- Python's `line.startswith('ATOM') or line.startswith('HETATM')`. -/
def hasCoordTag (line : List Char) : Bool :=
  List.isPrefixOf ("ATOM".toList) line || List.isPrefixOf ("HETATM".toList) line

/-- One loop iteration of `fix_pdb_alignment` on one raw line (newline
included): reformat qualifying coordinate lines, pass everything else
through verbatim; `none` models the fatal `ValueError`. -/
def processLine (line : List Char) : Option (List Char) :=
  if hasCoordTag line then
    if 11 ≤ (pySplit line).length then formatParts (pySplit line)
    else some line
  else some line

/-- The whole run of `fix_pdb_alignment` on the list of input lines: the
loop writes each processed line in order; an uncaught `ValueError` on any
line aborts the run (`none`). -/
def fixLines : List (List Char) → Option (List (List Char))
  | [] => some []
  | l :: ls =>
    match processLine l, fixLines ls with
    | some o, some os => some (o :: os)
    | _, _ => none

/-- `occursIn t s`: `t` occurs as a contiguous substring of `s`. -/
def occursIn (t : List Char) : List Char → Bool
  | [] => List.isPrefixOf t []
  | c :: s => List.isPrefixOf t (c :: s) || occursIn t s

/-- Strict-fit condition on the tokens of a qualifying coordinate line: the
numeric fields parse, and every field that is glued to its left neighbour
without a literal separating space (serial number, residue number, rendered
y/z/occupancy/B-factor) is strictly narrower than its nominal width. -/
def strictParts : List (List Char) → Bool
  | _ :: an :: _ :: _ :: _ :: rs :: xs :: ys :: zs :: os :: bs :: _ =>
    match parsePy xs, parsePy ys, parsePy zs, parsePy os, parsePy bs with
    | some _, some vy, some vz, some vo, some vb =>
      decide (an.length ≤ 4) && decide (rs.length ≤ 3) &&
      decide ((fmtBody vy 3).length ≤ 7) && decide ((fmtBody vz 3).length ≤ 7) &&
      decide ((fmtBody vo 2).length ≤ 5) && decide ((fmtBody vb 2).length ≤ 5)
    | _, _, _, _, _ => false
  | _ => true

/-- A line is strictly well-formed when, if it qualifies for reformatting,
its tokens satisfy `strictParts`. -/
def strictOK (line : List Char) : Bool :=
  if hasCoordTag line then strictParts (pySplit line) else true

/-! ### List utilities -/

theorem drop_append_ge (a : List Char) :
    ∀ (b : List Char) (k : ℕ), a.length ≤ k → (a ++ b).drop k = b.drop (k - a.length) := by
  induction a with
  | nil => intro b k _; simp
  | cons c cs ih =>
    intro b k hk
    cases k with
    | zero => simp at hk
    | succ k' =>
      simp only [List.cons_append, List.drop_succ_cons, List.length_cons]
      rw [ih b k' (by simpa using hk)]
      congr 1
      omega

theorem slice_of_append (pre mid post : List Char) (k n : ℕ)
    (hk : pre.length = k) (hn : mid.length = n) :
    slice (pre ++ (mid ++ post)) k n = mid := by
  subst hk hn
  unfold slice
  rw [drop_append_ge pre (mid ++ post) pre.length le_rfl, Nat.sub_self, List.drop_zero]
  rw [List.take_append_of_le_length le_rfl, List.take_length]

theorem isPrefixOf_append (p s : List Char) : List.isPrefixOf p (p ++ s) = true := by
  induction p with
  | nil => simp [List.isPrefixOf]
  | cons c cs ih => simp [List.isPrefixOf, ih]

theorem isPrefixOf_ex (p : List Char) :
    ∀ l, List.isPrefixOf p l = true → ∃ s, l = p ++ s := by
  induction p with
  | nil => intro l _; exact ⟨l, rfl⟩
  | cons c cs ih =>
    intro l h
    cases l with
    | nil => simp [List.isPrefixOf] at h
    | cons b bs =>
      simp only [List.isPrefixOf, Bool.and_eq_true, beq_iff_eq] at h
      obtain ⟨rfl, h2⟩ := h
      obtain ⟨s, rfl⟩ := ih bs h2
      exact ⟨s, rfl⟩

/-! ### Properties of `pySplit` -/

theorem splitAux_ws_skip (w : List Char) (rest : List Char)
    (h : ∀ c ∈ w, isWS c = true) :
    splitAux (w ++ rest) [] = splitAux rest [] := by
  induction w with
  | nil => rfl
  | cons c cs ih =>
    have hc : isWS c = true := h c (by simp)
    simp only [List.cons_append, splitAux, hc, if_true, List.isEmpty_nil]
    exact ih (fun x hx => h x (by simp [hx]))

theorem splitAux_nonws (t : List Char) :
    ∀ (rest acc : List Char), (∀ c ∈ t, isWS c = false) →
      splitAux (t ++ rest) acc = splitAux rest (t.reverse ++ acc) := by
  induction t with
  | nil => intro rest acc _; simp
  | cons c cs ih =>
    intro rest acc h
    have hc : isWS c = false := h c (by simp)
    simp only [List.cons_append, splitAux, hc, Bool.false_eq_true, if_false]
    show splitAux (cs ++ rest) (c :: acc) = _
    rw [ih rest (c :: acc) (fun x hx => h x (by simp [hx]))]
    simp

theorem splitAux_ws_cons (c : Char) (cs acc : List Char)
    (hc : isWS c = true) (ha : acc ≠ []) :
    splitAux (c :: cs) acc = acc.reverse :: splitAux cs [] := by
  simp only [splitAux, hc, if_true]
  rw [if_neg (by simpa using ha)]

theorem split_token_gap (t g rest : List Char)
    (ht : t ≠ []) (htn : ∀ c ∈ t, isWS c = false)
    (hg : g ≠ []) (hgw : ∀ c ∈ g, isWS c = true) :
    splitAux (t ++ (g ++ rest)) [] = t :: splitAux rest [] := by
  rw [splitAux_nonws t (g ++ rest) [] htn]
  cases g with
  | nil => exact absurd rfl hg
  | cons c g' =>
    have hc : isWS c = true := hgw c (by simp)
    rw [List.cons_append, splitAux_ws_cons c (g' ++ rest) _ hc (by simpa using ht)]
    rw [splitAux_ws_skip g' rest (fun x hx => hgw x (by simp [hx]))]
    simp

theorem splitAux_all_ws (w : List Char) (h : ∀ c ∈ w, isWS c = true) :
    splitAux w [] = [] := by
  have := splitAux_ws_skip w [] h
  simpa using this

theorem split_token_end (t g : List Char)
    (ht : t ≠ []) (htn : ∀ c ∈ t, isWS c = false)
    (hg : g ≠ []) (hgw : ∀ c ∈ g, isWS c = true) :
    splitAux (t ++ g) [] = [t] := by
  have h := split_token_gap t g [] ht htn hg hgw
  simp only [List.append_nil] at h
  simpa using h

theorem splitAux_tokens (cs : List Char) :
    ∀ acc, (∀ c ∈ acc, isWS c = false) →
      ∀ t ∈ splitAux cs acc, t ≠ [] ∧ ∀ c ∈ t, isWS c = false := by
  induction cs with
  | nil =>
    intro acc hacc t ht
    by_cases h : acc = []
    · subst h; simp [splitAux] at ht
    · simp only [splitAux, List.isEmpty_eq_true, h, if_false, List.mem_singleton] at ht
      subst ht
      refine ⟨by simpa using h, fun c hc => hacc c (by simpa using hc)⟩
  | cons c cs ih =>
    intro acc hacc t ht
    by_cases hws : isWS c = true
    · by_cases h : acc = []
      · subst h
        simp only [splitAux, hws, if_true, List.isEmpty_nil] at ht
        exact ih [] (by simp) t ht
      · rw [splitAux_ws_cons c cs acc hws h] at ht
        rcases List.mem_cons.mp ht with rfl | hmem
        · refine ⟨by simpa using h, fun x hx => hacc x (by simpa using hx)⟩
        · exact ih [] (by simp) t hmem
    · have hws' : isWS c = false := by simpa using hws
      simp only [splitAux, hws', Bool.false_eq_true, if_false] at ht
      refine ih (c :: acc) ?_ t ht
      intro x hx
      rcases List.mem_cons.mp hx with rfl | hx'
      · exact hws'
      · exact hacc x hx'

theorem pySplit_tokens (line : List Char) :
    ∀ t ∈ pySplit line, t ≠ [] ∧ ∀ c ∈ t, isWS c = false :=
  splitAux_tokens line [] (by simp)

theorem splitAux_head_acc (cs : List Char) :
    ∀ acc, acc ≠ [] → ∃ u rest, splitAux cs acc = (acc.reverse ++ u) :: rest := by
  induction cs with
  | nil =>
    intro acc ha
    refine ⟨[], [], ?_⟩
    simp [splitAux, List.isEmpty_eq_true, ha]
  | cons c cs ih =>
    intro acc ha
    by_cases hws : isWS c = true
    · exact ⟨[], splitAux cs [], by rw [splitAux_ws_cons c cs acc hws ha]; simp⟩
    · have hws' : isWS c = false := by simpa using hws
      obtain ⟨u, rest, hu⟩ := ih (c :: acc) (by simp)
      refine ⟨c :: u, rest, ?_⟩
      simp only [splitAux, hws', Bool.false_eq_true, if_false]
      rw [hu]
      simp

/-- The first token of a line extends any whitespace-free prefix of the
line. -/
theorem first_token_extends (p line : List Char)
    (hp : p ≠ []) (hnp : ∀ c ∈ p, isWS c = false)
    (h : List.isPrefixOf p line = true) :
    ∃ u rest, pySplit line = (p ++ u) :: rest := by
  obtain ⟨s, rfl⟩ := isPrefixOf_ex p line h
  unfold pySplit
  rw [splitAux_nonws p s [] hnp]
  obtain ⟨u, rest, hu⟩ := splitAux_head_acc s (p.reverse ++ []) (by simpa using hp)
  exact ⟨u, rest, by rw [hu]; simp⟩

/-! ### Decimal digit strings -/

theorem digitVal_digitChar (d : ℕ) (h : d < 10) : digitVal (digitChar d) = d := by
  interval_cases d <;> decide

theorem isDigitCh_digitChar (d : ℕ) (h : d < 10) : isDigitCh (digitChar d) = true := by
  interval_cases d <;> decide

theorem natToDecAux_digits (fuel : ℕ) :
    ∀ n, ∀ c ∈ natToDecAux fuel n, isDigitCh c = true := by
  induction fuel with
  | zero => intro n c hc; simp [natToDecAux] at hc
  | succ fuel ih =>
    intro n c hc
    by_cases h : n = 0
    · simp [natToDecAux, h] at hc
    · simp only [natToDecAux, h, if_false, List.mem_append, List.mem_singleton] at hc
      rcases hc with hc | rfl
      · exact ih _ c hc
      · exact isDigitCh_digitChar _ (Nat.mod_lt n (by norm_num))

theorem natToDec_digits (n : ℕ) : ∀ c ∈ natToDec n, isDigitCh c = true := by
  intro c hc
  by_cases h : n = 0
  · simp only [natToDec, h, if_true, List.mem_singleton] at hc
    subst hc; decide
  · simp only [natToDec, h, if_false] at hc
    exact natToDecAux_digits _ _ c hc

theorem natToDec_ne_nil (n : ℕ) : natToDec n ≠ [] := by
  by_cases h : n = 0
  · simp [natToDec, h]
  · simp only [natToDec, h, if_false]
    cases n with
    | zero => exact absurd rfl h
    | succ m =>
      simp only [natToDecAux, Nat.succ_ne_zero, if_false]
      simp

theorem foldl_dec_append (a : ℕ) (xs : List Char) (c : Char) :
    List.foldl (fun x d => x * 10 + digitVal d) a (xs ++ [c]) =
      (List.foldl (fun x d => x * 10 + digitVal d) a xs) * 10 + digitVal c := by
  rw [List.foldl_append]
  rfl

theorem natToDecAux_foldl (fuel : ℕ) :
    ∀ n a, n ≤ fuel →
      List.foldl (fun x d => x * 10 + digitVal d) a (natToDecAux fuel n) =
        a * 10 ^ (natToDecAux fuel n).length + n := by
  induction fuel with
  | zero =>
    intro n a hn
    have : n = 0 := Nat.le_zero.mp hn
    subst this
    simp [natToDecAux]
  | succ fuel ih =>
    intro n a hn
    by_cases h : n = 0
    · subst h; simp [natToDecAux]
    · simp only [natToDecAux, h, if_false]
      rw [foldl_dec_append, ih (n / 10) a (by omega)]
      rw [digitVal_digitChar _ (Nat.mod_lt n (by norm_num))]
      simp only [List.length_append, List.length_singleton]
      have hdm : n / 10 * 10 + n % 10 = n := Nat.div_add_mod' n 10
      ring_nf
      omega

theorem decToNat_natToDec (n : ℕ) : decToNat (natToDec n) = n := by
  by_cases h : n = 0
  · subst h; decide
  · simp only [natToDec, h, if_false, decToNat]
    have := natToDecAux_foldl (n + 1) n 0 (by omega)
    simpa using this

theorem natToDecAux_length_le (fuel : ℕ) :
    ∀ n d, n ≤ fuel → n < 10 ^ d → (natToDecAux fuel n).length ≤ d := by
  induction fuel with
  | zero => intro n d _ _; simp [natToDecAux]
  | succ fuel ih =>
    intro n d hn hd
    by_cases h : n = 0
    · simp [natToDecAux, h]
    · simp only [natToDecAux, h, if_false, List.length_append, List.length_singleton]
      have hd1 : 1 ≤ d := by
        by_contra hcon
        interval_cases d
        omega
      have : n / 10 < 10 ^ (d - 1) := by
        rw [Nat.div_lt_iff_lt_mul (by norm_num)]
        calc n < 10 ^ d := hd
        _ = 10 ^ (d - 1) * 10 := by
              rw [← pow_succ]
              congr 1
              omega
      have := ih (n / 10) (d - 1) (by omega) this
      omega

theorem natToDec_length_le (n d : ℕ) (hd : 0 < d) (h : n < 10 ^ d) :
    (natToDec n).length ≤ d := by
  by_cases h0 : n = 0
  · simp [natToDec, h0]; omega
  · simp only [natToDec, h0, if_false]
    exact natToDecAux_length_le (n + 1) n d (by omega) h

theorem foldl_dec_zeros (k : ℕ) :
    ∀ a, List.foldl (fun x d => x * 10 + digitVal d) a (List.replicate k '0') =
      a * 10 ^ k := by
  induction k with
  | zero => intro a; simp
  | succ k ih =>
    intro a
    simp only [List.replicate_succ, List.foldl_cons]
    rw [ih]
    have : digitVal '0' = 0 := by decide
    rw [this]
    ring

theorem decToNat_zpad (d : ℕ) (s : List Char) : decToNat (zpad d s) = decToNat s := by
  unfold zpad decToNat
  rw [List.foldl_append, foldl_dec_zeros]
  simp

theorem zpad_length (d : ℕ) (s : List Char) (h : s.length ≤ d) :
    (zpad d s).length = d := by
  simp [zpad]
  omega

theorem zpad_digits (d : ℕ) (s : List Char) (hs : ∀ c ∈ s, isDigitCh c = true) :
    ∀ c ∈ zpad d s, isDigitCh c = true := by
  intro c hc
  rcases List.mem_append.mp hc with hc | hc
  · have := List.eq_of_mem_replicate hc
    subst this; decide
  · exact hs c hc

/-! ### takeWhile / dropWhile -/

theorem takeWhile_all (p : Char → Bool) (xs : List Char)
    (hx : ∀ c ∈ xs, p c = true) : xs.takeWhile p = xs := by
  induction xs with
  | nil => rfl
  | cons c cs ih =>
    rw [List.takeWhile_cons, hx c (by simp)]
    simp only [if_true]
    rw [ih (fun x h => hx x (by simp [h]))]

theorem dropWhile_all (p : Char → Bool) (xs : List Char)
    (hx : ∀ c ∈ xs, p c = true) : xs.dropWhile p = [] := by
  induction xs with
  | nil => rfl
  | cons c cs ih =>
    rw [List.dropWhile_cons, hx c (by simp)]
    simp only [if_true]
    exact ih (fun x h => hx x (by simp [h]))

theorem takeWhile_all_append (p : Char → Bool) (xs : List Char) (y : Char)
    (ys : List Char) (hx : ∀ c ∈ xs, p c = true) (hy : p y = false) :
    (xs ++ y :: ys).takeWhile p = xs := by
  induction xs with
  | nil => simp [List.takeWhile_cons, hy]
  | cons c cs ih =>
    rw [List.cons_append, List.takeWhile_cons, hx c (by simp)]
    simp only [if_true]
    rw [ih (fun x h => hx x (by simp [h]))]

theorem dropWhile_all_append (p : Char → Bool) (xs : List Char) (y : Char)
    (ys : List Char) (hx : ∀ c ∈ xs, p c = true) (hy : p y = false) :
    (xs ++ y :: ys).dropWhile p = y :: ys := by
  induction xs with
  | nil => simp [List.dropWhile_cons, hy]
  | cons c cs ih =>
    rw [List.cons_append, List.dropWhile_cons, hx c (by simp)]
    simp only [if_true]
    exact ih (fun x h => hx x (by simp [h]))

/-! ### Parse / format round trip -/

theorem isEmpty_false_of_ne_nil {xs : List Char} (h : xs ≠ []) : xs.isEmpty = false := by
  cases xs with
  | nil => exact absurd rfl h
  | cons c cs => rfl

theorem parsePos_decimal (a f d : ℕ) (hd : 0 < d) (hf : f < 10 ^ d) :
    parsePos (natToDec a ++ '.' :: zpad d (natToDec f)) =
      some ⟨(a : ℤ) * 10 ^ d + (f : ℤ), -(d : ℤ)⟩ := by
  have hdot : isDigitCh '.' = false := by decide
  have hZdig : ∀ c ∈ zpad d (natToDec f), isDigitCh c = true :=
    zpad_digits d (natToDec f) (natToDec_digits f)
  have hZlen : (zpad d (natToDec f)).length = d :=
    zpad_length d (natToDec f) (natToDec_length_le f d hd hf)
  unfold parsePos
  rw [takeWhile_all_append isDigitCh (natToDec a) '.' _ (natToDec_digits a) hdot,
    dropWhile_all_append isDigitCh (natToDec a) '.' _ (natToDec_digits a) hdot]
  simp only [if_pos rfl]
  rw [takeWhile_all isDigitCh _ hZdig, dropWhile_all isDigitCh _ hZdig]
  rw [isEmpty_false_of_ne_nil (natToDec_ne_nil a)]
  simp only [Bool.false_and, Bool.false_eq_true, if_false]
  rw [decToNat_natToDec, decToNat_zpad, decToNat_natToDec, hZlen]
  simp

theorem digit_ne_sign (c : Char) (h : isDigitCh c = true) : c ≠ '+' ∧ c ≠ '-' := by
  constructor
  · intro hc; subst hc; exact absurd h (by decide)
  · intro hc; subst hc; exact absurd h (by decide)

theorem parsePy_cons (c : Char) (r : List Char) :
    parsePy (c :: r) =
      if c = '+' then parsePos r
      else if c = '-' then (parsePos r).map (fun v => ⟨-v.m, v.e⟩)
      else parsePos (c :: r) := rfl

theorem fmtBody_decomp (v : DecLit) (d : ℕ) (hd0 : d ≠ 0) :
    fmtBody v d =
      (if roundScaled v d < 0 then ['-'] else []) ++
        (natToDec ((roundScaled v d).natAbs / 10 ^ d) ++
          '.' :: zpad d (natToDec ((roundScaled v d).natAbs % 10 ^ d))) := by
  unfold fmtBody
  simp only [hd0, if_false]
  by_cases h : roundScaled v d < 0 <;> simp [h]

theorem parsePy_fmtBody (v : DecLit) (d : ℕ) (hd : 0 < d) :
    parsePy (fmtBody v d) = some ⟨roundScaled v d, -(d : ℤ)⟩ := by
  have hd0 : d ≠ 0 := by omega
  have hp : 0 < 10 ^ d := Nat.pos_pow_of_pos d (by norm_num)
  have hf : (roundScaled v d).natAbs % 10 ^ d < 10 ^ d := Nat.mod_lt _ hp
  have hsum : (roundScaled v d).natAbs / 10 ^ d * 10 ^ d +
      (roundScaled v d).natAbs % 10 ^ d = (roundScaled v d).natAbs :=
    Nat.div_add_mod' _ _
  have hz : ((((roundScaled v d).natAbs / 10 ^ d : ℕ)) : ℤ) * (10 : ℤ) ^ d +
      (((roundScaled v d).natAbs % 10 ^ d : ℕ) : ℤ) =
        ((roundScaled v d).natAbs : ℤ) := by
    exact_mod_cast hsum
  rw [fmtBody_decomp v d hd0]
  by_cases hneg : roundScaled v d < 0
  · have habs : ((roundScaled v d).natAbs : ℤ) = -(roundScaled v d) := by omega
    rw [if_pos hneg, List.singleton_append, parsePy_cons]
    rw [if_neg (by decide), if_pos rfl]
    rw [parsePos_decimal _ _ d hd hf]
    show some (DecLit.mk _ _) = some (DecLit.mk _ _)
    congr 1
    rw [DecLit.mk.injEq]
    refine ⟨?_, rfl⟩
    rw [hz, habs]
    ring
  · have habs : ((roundScaled v d).natAbs : ℤ) = roundScaled v d := by omega
    rw [if_neg hneg, List.nil_append]
    obtain ⟨c0, t, hct⟩ : ∃ c0 t,
        natToDec ((roundScaled v d).natAbs / 10 ^ d) = c0 :: t := by
      cases hA : natToDec ((roundScaled v d).natAbs / 10 ^ d) with
      | nil => exact absurd hA (natToDec_ne_nil _)
      | cons x xs => exact ⟨x, xs, rfl⟩
    have hc0dig : isDigitCh c0 = true := by
      apply natToDec_digits ((roundScaled v d).natAbs / 10 ^ d)
      rw [hct]; simp
    obtain ⟨hne1, hne2⟩ := digit_ne_sign c0 hc0dig
    rw [hct, List.cons_append, parsePy_cons]
    rw [if_neg hne1, if_neg hne2, ← List.cons_append, ← hct]
    rw [parsePos_decimal _ _ d hd hf]
    congr 1
    rw [DecLit.mk.injEq]
    refine ⟨?_, rfl⟩
    rw [hz, habs]

theorem roundScaled_exact (n : ℤ) (d : ℕ) : roundScaled ⟨n, -(d : ℤ)⟩ d = n := by
  unfold roundScaled
  simp

theorem fmtBody_congr (v w : DecLit) (d : ℕ)
    (h : roundScaled v d = roundScaled w d) : fmtBody v d = fmtBody w d := by
  unfold fmtBody
  rw [h]

theorem fmtBody_reparse (v : DecLit) (d : ℕ) (hd : 0 < d) :
    parsePy (fmtBody v d) = some ⟨roundScaled v d, -(d : ℤ)⟩ ∧
      fmtBody ⟨roundScaled v d, -(d : ℤ)⟩ d = fmtBody v d :=
  ⟨parsePy_fmtBody v d hd,
   fmtBody_congr _ v d (by rw [roundScaled_exact])⟩

theorem ws_not_digit (c : Char) (h : isWS c = true) : isDigitCh c = false := by
  simp only [isWS, Bool.or_eq_true, decide_eq_true_eq] at h
  rcases h with ((((h | h) | h) | h) | h) | h <;> (subst h; decide)

theorem digit_not_ws (c : Char) (h : isDigitCh c = true) : isWS c = false := by
  by_cases hw : isWS c = true
  · rw [ws_not_digit c hw] at h
    exact absurd h (by simp)
  · simpa using hw

theorem fmtBody_ne_nil (v : DecLit) (d : ℕ) : fmtBody v d ≠ [] := by
  unfold fmtBody
  by_cases hneg : roundScaled v d < 0
  · simp only [hneg, if_pos]
    simp
  · simp only [hneg, if_neg, Bool.false_eq_true, if_false]
    by_cases hd : d = 0
    · simp only [hd, if_pos rfl]
      exact natToDec_ne_nil _
    · simp only [hd, if_false]
      simp

theorem fmtBody_nonws (v : DecLit) (d : ℕ) : ∀ c ∈ fmtBody v d, isWS c = false := by
  intro c hc
  unfold fmtBody at hc
  have hcore : ∀ x ∈ (if d = 0 then natToDec ((roundScaled v d).natAbs / 10 ^ d)
      else natToDec ((roundScaled v d).natAbs / 10 ^ d) ++
        '.' :: zpad d (natToDec ((roundScaled v d).natAbs % 10 ^ d))),
      isWS x = false := by
    intro x hx
    by_cases hd : d = 0
    · rw [if_pos hd] at hx
      exact digit_not_ws x (natToDec_digits _ x hx)
    · rw [if_neg hd] at hx
      rcases List.mem_append.mp hx with hx | hx
      · exact digit_not_ws x (natToDec_digits _ x hx)
      · rcases List.mem_cons.mp hx with rfl | hx
        · decide
        · exact digit_not_ws x (zpad_digits _ _ (natToDec_digits _) x hx)
  by_cases hneg : roundScaled v d < 0
  · rw [if_pos hneg] at hc
    rcases List.mem_cons.mp hc with rfl | hc
    · decide
    · exact hcore c hc
  · rw [if_neg hneg] at hc
    exact hcore c hc

/-! ### Gaps and padding -/

theorem rep_ws_mem (n : ℕ) : ∀ c ∈ rep n, isWS c = true := by
  intro c hc
  have := List.eq_of_mem_replicate hc
  subst this
  decide

theorem sp_ws_mem : ∀ c ∈ ([' '] : List Char), isWS c = true := by
  intro c hc
  simp only [List.mem_singleton] at hc
  subst hc
  decide

theorem nl_ws_mem : ∀ c ∈ (['\n'] : List Char), isWS c = true := by
  intro c hc
  simp only [List.mem_singleton] at hc
  subst hc
  decide

theorem ws_append {xs ys : List Char} (hx : ∀ c ∈ xs, isWS c = true)
    (hy : ∀ c ∈ ys, isWS c = true) : ∀ c ∈ xs ++ ys, isWS c = true := by
  intro c hc
  rcases List.mem_append.mp hc with h | h
  · exact hx c h
  · exact hy c h

theorem rep_ne_nil {n : ℕ} (h : 0 < n) : rep n ≠ [] := by
  intro hcon
  have := congrArg List.length hcon
  simp [rep] at this
  omega

theorem ne_nil_left {xs ys : List Char} (h : xs ≠ []) : xs ++ ys ≠ [] := by
  simp only [ne_eq, List.append_eq_nil]
  tauto

theorem ne_nil_right {xs ys : List Char} (h : ys ≠ []) : xs ++ ys ≠ [] := by
  simp only [ne_eq, List.append_eq_nil]
  tauto

/-- The output line as an alternation of tokens and whitespace gaps. -/
theorem fieldsLine_decomp (rt an nm rn ch rs el : List Char)
    (vx vy vz vo vb : DecLit) :
    fieldsLine rt an nm rn ch rs vx vy vz vo vb el =
      rt ++ ((rep (6 - rt.length) ++ rep (5 - an.length)) ++ (an ++ (([' ']) ++
      (nm ++ ((rep (4 - nm.length) ++ ([' '] ++ rep (3 - rn.length))) ++
      (rn ++ (([' '] ++ rep (1 - ch.length)) ++ (ch ++ ((rep (4 - rs.length)) ++
      (rs ++ ((rep 4 ++ rep (8 - (fmtBody vx 3).length)) ++
      (fmtBody vx 3 ++ ((rep (8 - (fmtBody vy 3).length)) ++
      (fmtBody vy 3 ++ ((rep (8 - (fmtBody vz 3).length)) ++
      (fmtBody vz 3 ++ ((rep (6 - (fmtBody vo 2).length)) ++
      (fmtBody vo 2 ++ ((rep (6 - (fmtBody vb 2).length)) ++
      (fmtBody vb 2 ++ ((rep 10 ++ rep (2 - el.length)) ++
      (el ++ ['\n'])))))))))))))))))))))) := by
  unfold fieldsLine fmtFixed padLeft padRight
  simp only [List.append_assoc]

/-- Splitting the fixed-width output line recovers its tokens, provided the
serial number, residue number, and the rendered y/z/occupancy/B-factor
bodies are strictly narrower than their fields (those are the fields glued
to their left neighbour without a literal separating space). -/
theorem pySplit_fieldsLine
    (rt an nm rn ch rs el : List Char) (vx vy vz vo vb : DecLit)
    (hrt : rt ≠ []) (hrtn : ∀ c ∈ rt, isWS c = false)
    (han : an ≠ []) (hann : ∀ c ∈ an, isWS c = false) (hanl : an.length ≤ 4)
    (hnm : nm ≠ []) (hnmn : ∀ c ∈ nm, isWS c = false)
    (hrn : rn ≠ []) (hrnn : ∀ c ∈ rn, isWS c = false)
    (hch : ch ≠ []) (hchn : ∀ c ∈ ch, isWS c = false)
    (hrs : rs ≠ []) (hrsn : ∀ c ∈ rs, isWS c = false) (hrsl : rs.length ≤ 3)
    (heln : ∀ c ∈ el, isWS c = false)
    (hbyl : (fmtBody vy 3).length ≤ 7) (hbzl : (fmtBody vz 3).length ≤ 7)
    (hbol : (fmtBody vo 2).length ≤ 5) (hbbl : (fmtBody vb 2).length ≤ 5) :
    pySplit (fieldsLine rt an nm rn ch rs vx vy vz vo vb el) =
      [rt, an, nm, rn, ch, rs, fmtBody vx 3, fmtBody vy 3, fmtBody vz 3,
       fmtBody vo 2, fmtBody vb 2] ++ (if el.isEmpty then [] else [el]) := by
  have hfl := fieldsLine_decomp rt an nm rn ch rs el vx vy vz vo vb
  unfold pySplit
  rw [hfl]
  rw [split_token_gap rt _ _ hrt hrtn
    (ne_nil_right (rep_ne_nil (by omega)))
    (ws_append (rep_ws_mem _) (rep_ws_mem _))]
  rw [split_token_gap an _ _ han hann (by simp) sp_ws_mem]
  rw [split_token_gap nm _ _ hnm hnmn
    (ne_nil_right (by simp))
    (ws_append (rep_ws_mem _) (ws_append sp_ws_mem (rep_ws_mem _)))]
  rw [split_token_gap rn _ _ hrn hrnn
    (ne_nil_left (by simp))
    (ws_append sp_ws_mem (rep_ws_mem _))]
  rw [split_token_gap ch _ _ hch hchn
    (rep_ne_nil (by omega)) (rep_ws_mem _)]
  rw [split_token_gap rs _ _ hrs hrsn
    (ne_nil_left (rep_ne_nil (by omega)))
    (ws_append (rep_ws_mem _) (rep_ws_mem _))]
  rw [split_token_gap (fmtBody vx 3) _ _ (fmtBody_ne_nil vx 3) (fmtBody_nonws vx 3)
    (rep_ne_nil (by omega)) (rep_ws_mem _)]
  rw [split_token_gap (fmtBody vy 3) _ _ (fmtBody_ne_nil vy 3) (fmtBody_nonws vy 3)
    (rep_ne_nil (by omega)) (rep_ws_mem _)]
  rw [split_token_gap (fmtBody vz 3) _ _ (fmtBody_ne_nil vz 3) (fmtBody_nonws vz 3)
    (rep_ne_nil (by omega)) (rep_ws_mem _)]
  rw [split_token_gap (fmtBody vo 2) _ _ (fmtBody_ne_nil vo 2) (fmtBody_nonws vo 2)
    (rep_ne_nil (by omega)) (rep_ws_mem _)]
  rw [split_token_gap (fmtBody vb 2) _ _ (fmtBody_ne_nil vb 2) (fmtBody_nonws vb 2)
    (ne_nil_left (rep_ne_nil (by omega)))
    (ws_append (rep_ws_mem _) (rep_ws_mem _))]
  by_cases hel : el = []
  · subst hel
    rw [List.nil_append, splitAux_all_ws _ nl_ws_mem]
    simp
  · rw [split_token_end el _ hel heln (by simp) nl_ws_mem]
    simp [isEmpty_false_of_ne_nil hel]

/-! ### Reduction lemmas for `formatParts` and `processLine` -/

theorem formatParts_cons_eq (rt an nm rn ch rs xs ys zs os bs : List Char)
    (rest : List (List Char)) :
    formatParts (rt :: an :: nm :: rn :: ch :: rs :: xs :: ys :: zs :: os :: bs :: rest) =
      (match parsePy xs, parsePy ys, parsePy zs, parsePy os, parsePy bs with
       | some vx, some vy, some vz, some vo, some vb =>
         some (fieldsLine rt an nm rn ch rs vx vy vz vo vb (rest.headD []))
       | _, _, _, _, _ => none) := rfl

theorem formatParts_some (rt an nm rn ch rs xs ys zs os bs : List Char)
    (rest : List (List Char)) (vx vy vz vo vb : DecLit)
    (hx : parsePy xs = some vx) (hy : parsePy ys = some vy)
    (hz : parsePy zs = some vz) (ho : parsePy os = some vo)
    (hb : parsePy bs = some vb) :
    formatParts (rt :: an :: nm :: rn :: ch :: rs :: xs :: ys :: zs :: os :: bs :: rest) =
      some (fieldsLine rt an nm rn ch rs vx vy vz vo vb (rest.headD [])) := by
  rw [formatParts_cons_eq, hx, hy, hz, ho, hb]

theorem formatParts_none_iff (rt an nm rn ch rs xs ys zs os bs : List Char)
    (rest : List (List Char)) :
    formatParts (rt :: an :: nm :: rn :: ch :: rs :: xs :: ys :: zs :: os :: bs :: rest) = none ↔
      (parsePy xs = none ∨ parsePy ys = none ∨ parsePy zs = none ∨
        parsePy os = none ∨ parsePy bs = none) := by
  rw [formatParts_cons_eq]
  cases parsePy xs <;> cases parsePy ys <;> cases parsePy zs <;>
    cases parsePy os <;> cases parsePy bs <;> simp

theorem processLine_not_tag (line : List Char) (h : hasCoordTag line = false) :
    processLine line = some line := by
  unfold processLine
  rw [h]
  simp

theorem processLine_short (line : List Char) (h1 : hasCoordTag line = true)
    (h2 : (pySplit line).length < 11) :
    processLine line = some line := by
  unfold processLine
  rw [h1]
  simp only [if_true]
  rw [if_neg (by omega)]

theorem processLine_qual (line : List Char) (h1 : hasCoordTag line = true)
    (h2 : 11 ≤ (pySplit line).length) :
    processLine line = formatParts (pySplit line) := by
  unfold processLine
  rw [h1]
  simp only [if_true]
  rw [if_pos h2]

theorem fmtFixed_congr (v w : DecLit) (wd d : ℕ)
    (h : roundScaled v d = roundScaled w d) : fmtFixed v wd d = fmtFixed w wd d := by
  unfold fmtFixed
  rw [fmtBody_congr v w d h]

theorem fieldsLine_congr (rt an nm rn ch rs el : List Char)
    (vx vy vz vo vb vx' vy' vz' vo' vb' : DecLit)
    (hx : roundScaled vx' 3 = roundScaled vx 3)
    (hy : roundScaled vy' 3 = roundScaled vy 3)
    (hz : roundScaled vz' 3 = roundScaled vz 3)
    (ho : roundScaled vo' 2 = roundScaled vo 2)
    (hb : roundScaled vb' 2 = roundScaled vb 2) :
    fieldsLine rt an nm rn ch rs vx' vy' vz' vo' vb' el =
      fieldsLine rt an nm rn ch rs vx vy vz vo vb el := by
  unfold fieldsLine
  rw [fmtFixed_congr vx' vx 8 3 hx, fmtFixed_congr vy' vy 8 3 hy,
    fmtFixed_congr vz' vz 8 3 hz, fmtFixed_congr vo' vo 6 2 ho,
    fmtFixed_congr vb' vb 6 2 hb]

/-! ### Further helpers -/

theorem exists_cons11 (parts : List (List Char)) (h : 11 ≤ parts.length) :
    ∃ a0 a1 a2 a3 a4 a5 a6 a7 a8 a9 a10 rest,
      parts = a0 :: a1 :: a2 :: a3 :: a4 :: a5 :: a6 :: a7 :: a8 :: a9 :: a10 :: rest := by
  rcases parts with _ | ⟨a0, parts⟩
  · exfalso; simp at h
  rcases parts with _ | ⟨a1, parts⟩
  · exfalso; simp at h
  rcases parts with _ | ⟨a2, parts⟩
  · exfalso; simp at h
  rcases parts with _ | ⟨a3, parts⟩
  · exfalso; simp at h
  rcases parts with _ | ⟨a4, parts⟩
  · exfalso; simp at h
  rcases parts with _ | ⟨a5, parts⟩
  · exfalso; simp at h
  rcases parts with _ | ⟨a6, parts⟩
  · exfalso; simp at h
  rcases parts with _ | ⟨a7, parts⟩
  · exfalso; simp at h
  rcases parts with _ | ⟨a8, parts⟩
  · exfalso; simp at h
  rcases parts with _ | ⟨a9, parts⟩
  · exfalso; simp at h
  rcases parts with _ | ⟨a10, parts⟩
  · exfalso; simp at h
  exact ⟨a0, a1, a2, a3, a4, a5, a6, a7, a8, a9, a10, parts, rfl⟩

theorem strictParts_cons_eq (rt an nm rn ch rs xs ys zs os bs : List Char)
    (rest : List (List Char)) :
    strictParts (rt :: an :: nm :: rn :: ch :: rs :: xs :: ys :: zs :: os :: bs :: rest) =
      (match parsePy xs, parsePy ys, parsePy zs, parsePy os, parsePy bs with
       | some _, some vy, some vz, some vo, some vb =>
         decide (an.length ≤ 4) && decide (rs.length ≤ 3) &&
         decide ((fmtBody vy 3).length ≤ 7) && decide ((fmtBody vz 3).length ≤ 7) &&
         decide ((fmtBody vo 2).length ≤ 5) && decide ((fmtBody vb 2).length ≤ 5)
       | _, _, _, _, _ => false) := rfl

theorem hasCoordTag_cases (line : List Char) (h : hasCoordTag line = true) :
    List.isPrefixOf ("ATOM".toList) line = true ∨
      List.isPrefixOf ("HETATM".toList) line = true := by
  unfold hasCoordTag at h
  exact (Bool.or_eq_true _ _).mp h

theorem fieldsLine_rt_head (rt an nm rn ch rs el : List Char)
    (vx vy vz vo vb : DecLit) :
    ∃ w, fieldsLine rt an nm rn ch rs vx vy vz vo vb el = rt ++ w :=
  ⟨_, fieldsLine_decomp rt an nm rn ch rs el vx vy vz vo vb⟩

/-- The reformatted line keeps the coordinate tag of the source line. -/
theorem hasCoordTag_fieldsLine (line rt an nm rn ch rs el : List Char)
    (parts : List (List Char)) (vx vy vz vo vb : DecLit)
    (htag : hasCoordTag line = true)
    (hsp : pySplit line = rt :: parts) :
    hasCoordTag (fieldsLine rt an nm rn ch rs vx vy vz vo vb el) = true := by
  obtain ⟨w, hw⟩ := fieldsLine_rt_head rt an nm rn ch rs el vx vy vz vo vb
  rcases hasCoordTag_cases line htag with hpre | hpre
  · obtain ⟨u, rest2, hu⟩ :=
      first_token_extends _ line (by decide) (by decide) hpre
    rw [hsp] at hu
    obtain ⟨hrt, -⟩ := List.cons.injEq _ _ _ _ ▸ hu
    unfold hasCoordTag
    apply (Bool.or_eq_true _ _).mpr
    left
    rw [hw, hrt, List.append_assoc]
    exact isPrefixOf_append _ _
  · obtain ⟨u, rest2, hu⟩ :=
      first_token_extends _ line (by decide) (by decide) hpre
    rw [hsp] at hu
    obtain ⟨hrt, -⟩ := List.cons.injEq _ _ _ _ ▸ hu
    unfold hasCoordTag
    apply (Bool.or_eq_true _ _).mpr
    right
    rw [hw, hrt, List.append_assoc]
    exact isPrefixOf_append _ _

theorem padLeft_length_of_le {s : List Char} {w : ℕ} (h : s.length ≤ w) :
    (padLeft s w).length = w := by
  simp [padLeft, rep]
  omega

theorem padRight_length_of_le {s : List Char} {w : ℕ} (h : s.length ≤ w) :
    (padRight s w).length = w := by
  simp [padRight, rep]
  omega

theorem fmtFixed_length_of_le {v : DecLit} {w d : ℕ} (h : (fmtBody v d).length ≤ w) :
    (fmtFixed v w d).length = w :=
  padLeft_length_of_le h

theorem occursIn_head (t b : List Char) : occursIn t (t ++ b) = true := by
  cases h : t ++ b with
  | nil => simp only [occursIn]; rw [← h]; exact isPrefixOf_append t b
  | cons c s =>
    simp only [occursIn]
    apply (Bool.or_eq_true _ _).mpr
    left
    rw [← h]
    exact isPrefixOf_append t b

theorem occursIn_append_right (t : List Char) (x : List Char) {y : List Char}
    (h : occursIn t y = true) : occursIn t (x ++ y) = true := by
  induction x with
  | nil => simpa using h
  | cons c cs ih =>
    simp only [List.cons_append, occursIn]
    apply (Bool.or_eq_true _ _).mpr
    right
    exact ih

theorem slice_mid (o pre mid post : List Char) (k n : ℕ)
    (ho : o = pre ++ (mid ++ post)) (hk : pre.length = k) (hn : mid.length = n) :
    slice o k n = mid := by
  rw [ho]
  exact slice_of_append pre mid post k n hk hn

theorem fixLines_cons_eq (l : List Char) (ls : List (List Char)) :
    fixLines (l :: ls) =
      (match processLine l, fixLines ls with
       | some o, some os => some (o :: os)
       | _, _ => none) := rfl

theorem formatParts_some_inv (rt an nm rn ch rs xs ys zs os bs : List Char)
    (rest : List (List Char)) (o : List Char)
    (h : formatParts (rt :: an :: nm :: rn :: ch :: rs :: xs :: ys :: zs :: os :: bs :: rest) = some o) :
    ∃ vx vy vz vo vb, parsePy xs = some vx ∧ parsePy ys = some vy ∧
      parsePy zs = some vz ∧ parsePy os = some vo ∧ parsePy bs = some vb ∧
      o = fieldsLine rt an nm rn ch rs vx vy vz vo vb (rest.headD []) := by
  rw [formatParts_cons_eq] at h
  rcases hx : parsePy xs with _ | vx <;> rw [hx] at h
  · simp at h
  rcases hy : parsePy ys with _ | vy <;> rw [hy] at h
  · simp at h
  rcases hz : parsePy zs with _ | vz <;> rw [hz] at h
  · simp at h
  rcases ho : parsePy os with _ | vo <;> rw [ho] at h
  · simp at h
  rcases hb : parsePy bs with _ | vb <;> rw [hb] at h
  · simp at h
  exact ⟨vx, vy, vz, vo, vb, rfl, rfl, rfl, rfl, rfl, (Option.some.inj h).symm⟩

theorem strictParts_bounds (rt an nm rn ch rs xs ys zs os bs : List Char)
    (rest : List (List Char)) (vx vy vz vo vb : DecLit)
    (hx : parsePy xs = some vx) (hy : parsePy ys = some vy)
    (hz : parsePy zs = some vz) (ho : parsePy os = some vo)
    (hb : parsePy bs = some vb)
    (hok : strictParts (rt :: an :: nm :: rn :: ch :: rs :: xs :: ys :: zs :: os :: bs :: rest) = true) :
    an.length ≤ 4 ∧ rs.length ≤ 3 ∧ (fmtBody vy 3).length ≤ 7 ∧
      (fmtBody vz 3).length ≤ 7 ∧ (fmtBody vo 2).length ≤ 5 ∧
      (fmtBody vb 2).length ≤ 5 := by
  rw [strictParts_cons_eq, hx, hy, hz, ho, hb] at hok
  simp only [Bool.and_eq_true, decide_eq_true_eq] at hok
  tauto

/-- Processing the output of a strictly well-formed line reproduces it. -/
theorem processLine_idem (line o : List Char)
    (hok : strictOK line = true) (h : processLine line = some o) :
    processLine o = some o := by
  by_cases htag : hasCoordTag line = true
  · by_cases hlen : 11 ≤ (pySplit line).length
    · obtain ⟨rt, an, nm, rn, ch, rs, xs, ys, zs, os, bs, rest, hsp⟩ :=
        exists_cons11 _ hlen
      rw [processLine_qual line htag hlen, hsp] at h
      obtain ⟨vx, vy, vz, vo, vb, hx, hy, hz, hvo, hvb, ho_eq⟩ :=
        formatParts_some_inv _ _ _ _ _ _ _ _ _ _ _ _ _ h
      have hokp : strictParts (pySplit line) = true := by
        unfold strictOK at hok
        simpa [htag] using hok
      rw [hsp] at hokp
      obtain ⟨han4, hrs3, hy7, hz7, ho5, hb5⟩ :=
        strictParts_bounds _ _ _ _ _ _ _ _ _ _ _ _ _ _ _ _ _ hx hy hz hvo hvb hokp
      have htoks := pySplit_tokens line
      rw [hsp] at htoks
      have helw : ∀ c ∈ rest.headD ([] : List Char), isWS c = false := by
        cases rest with
        | nil => intro c hc; simp at hc
        | cons e r2 =>
          intro c hc
          simp only [List.headD_cons] at hc
          exact (htoks e (by simp)).2 c hc
      have hsplit := pySplit_fieldsLine rt an nm rn ch rs (rest.headD []) vx vy vz vo vb
        (htoks rt (by simp)).1 (htoks rt (by simp)).2
        (htoks an (by simp)).1 (htoks an (by simp)).2 han4
        (htoks nm (by simp)).1 (htoks nm (by simp)).2
        (htoks rn (by simp)).1 (htoks rn (by simp)).2
        (htoks ch (by simp)).1 (htoks ch (by simp)).2
        (htoks rs (by simp)).1 (htoks rs (by simp)).2 hrs3
        helw hy7 hz7 ho5 hb5
      rw [← ho_eq] at hsplit
      have htag_o : hasCoordTag o = true := by
        rw [ho_eq]
        exact hasCoordTag_fieldsLine line rt an nm rn ch rs (rest.headD [])
          (an :: nm :: rn :: ch :: rs :: xs :: ys :: zs :: os :: bs :: rest)
          vx vy vz vo vb htag hsp
      by_cases helE : (rest.headD ([] : List Char)).isEmpty = true
      · have helnil : rest.headD ([] : List Char) = [] := by
          cases hE : rest.headD ([] : List Char) with
          | nil => rfl
          | cons a b => rw [hE] at helE; simp at helE
        have hsplit2 : pySplit o = [rt, an, nm, rn, ch, rs, fmtBody vx 3,
            fmtBody vy 3, fmtBody vz 3, fmtBody vo 2, fmtBody vb 2] := by
          rw [hsplit, helE]
          simp
        have hlen_o : 11 ≤ (pySplit o).length := by rw [hsplit2]; simp
        rw [processLine_qual o htag_o hlen_o, hsplit2]
        have hfp := formatParts_some rt an nm rn ch rs (fmtBody vx 3) (fmtBody vy 3)
          (fmtBody vz 3) (fmtBody vo 2) (fmtBody vb 2) []
          ⟨roundScaled vx 3, -(3 : ℤ)⟩ ⟨roundScaled vy 3, -(3 : ℤ)⟩
          ⟨roundScaled vz 3, -(3 : ℤ)⟩ ⟨roundScaled vo 2, -(2 : ℤ)⟩
          ⟨roundScaled vb 2, -(2 : ℤ)⟩
          (parsePy_fmtBody vx 3 (by norm_num)) (parsePy_fmtBody vy 3 (by norm_num))
          (parsePy_fmtBody vz 3 (by norm_num)) (parsePy_fmtBody vo 2 (by norm_num))
          (parsePy_fmtBody vb 2 (by norm_num))
        have hshape : ([rt, an, nm, rn, ch, rs, fmtBody vx 3, fmtBody vy 3,
            fmtBody vz 3, fmtBody vo 2, fmtBody vb 2] : List (List Char)) =
            rt :: an :: nm :: rn :: ch :: rs :: fmtBody vx 3 :: fmtBody vy 3 ::
              fmtBody vz 3 :: fmtBody vo 2 :: fmtBody vb 2 :: [] := rfl
        rw [hshape, hfp]
        refine congrArg some ?_
        have hcg := fieldsLine_congr rt an nm rn ch rs ([] : List Char)
          vx vy vz vo vb
          ⟨roundScaled vx 3, -(3 : ℤ)⟩ ⟨roundScaled vy 3, -(3 : ℤ)⟩
          ⟨roundScaled vz 3, -(3 : ℤ)⟩ ⟨roundScaled vo 2, -(2 : ℤ)⟩
          ⟨roundScaled vb 2, -(2 : ℤ)⟩
          (roundScaled_exact _ 3) (roundScaled_exact _ 3) (roundScaled_exact _ 3)
          (roundScaled_exact _ 2) (roundScaled_exact _ 2)
        simp only [List.headD_nil]
        rw [hcg, ho_eq, helnil]
      · have helE' : (rest.headD ([] : List Char)).isEmpty = false := by
          simpa using helE
        have hsplit2 : pySplit o = [rt, an, nm, rn, ch, rs, fmtBody vx 3,
            fmtBody vy 3, fmtBody vz 3, fmtBody vo 2, fmtBody vb 2] ++
              [rest.headD []] := by
          rw [hsplit, helE']
          simp
        have hlen_o : 11 ≤ (pySplit o).length := by rw [hsplit2]; simp
        rw [processLine_qual o htag_o hlen_o, hsplit2]
        have hshape : (([rt, an, nm, rn, ch, rs, fmtBody vx 3, fmtBody vy 3,
            fmtBody vz 3, fmtBody vo 2, fmtBody vb 2] : List (List Char)) ++
              [rest.headD []]) =
            rt :: an :: nm :: rn :: ch :: rs :: fmtBody vx 3 :: fmtBody vy 3 ::
              fmtBody vz 3 :: fmtBody vo 2 :: fmtBody vb 2 :: [rest.headD []] := rfl
        rw [hshape]
        have hfp := formatParts_some rt an nm rn ch rs (fmtBody vx 3) (fmtBody vy 3)
          (fmtBody vz 3) (fmtBody vo 2) (fmtBody vb 2) [rest.headD []]
          ⟨roundScaled vx 3, -(3 : ℤ)⟩ ⟨roundScaled vy 3, -(3 : ℤ)⟩
          ⟨roundScaled vz 3, -(3 : ℤ)⟩ ⟨roundScaled vo 2, -(2 : ℤ)⟩
          ⟨roundScaled vb 2, -(2 : ℤ)⟩
          (parsePy_fmtBody vx 3 (by norm_num)) (parsePy_fmtBody vy 3 (by norm_num))
          (parsePy_fmtBody vz 3 (by norm_num)) (parsePy_fmtBody vo 2 (by norm_num))
          (parsePy_fmtBody vb 2 (by norm_num))
        rw [hfp]
        refine congrArg some ?_
        have hcg := fieldsLine_congr rt an nm rn ch rs
          (([rest.headD []] : List (List Char)).headD [])
          vx vy vz vo vb
          ⟨roundScaled vx 3, -(3 : ℤ)⟩ ⟨roundScaled vy 3, -(3 : ℤ)⟩
          ⟨roundScaled vz 3, -(3 : ℤ)⟩ ⟨roundScaled vo 2, -(2 : ℤ)⟩
          ⟨roundScaled vb 2, -(2 : ℤ)⟩
          (roundScaled_exact _ 3) (roundScaled_exact _ 3) (roundScaled_exact _ 3)
          (roundScaled_exact _ 2) (roundScaled_exact _ 2)
        rw [hcg, ho_eq]
        simp
    · rw [processLine_short line htag (by omega)] at h
      obtain rfl : line = o := Option.some.inj h
      exact processLine_short line htag (by omega)
  · have htag' : hasCoordTag line = false := by simpa using htag
    rw [processLine_not_tag line htag'] at h
    obtain rfl : line = o := Option.some.inj h
    exact processLine_not_tag line htag'

theorem fixLines_none_iff (ls : List (List Char)) :
    fixLines ls = none ↔ ∃ l ∈ ls, processLine l = none := by
  induction ls with
  | nil => simp [fixLines]
  | cons l ls ih =>
    rw [fixLines_cons_eq]
    rcases hp : processLine l with _ | o
    · constructor
      · intro _
        exact ⟨l, by simp, hp⟩
      · intro _
        rfl
    · rcases hr : fixLines ls with _ | os
      · constructor
        · intro _
          obtain ⟨l', hl', hpl'⟩ := ih.mp hr
          exact ⟨l', by simp [hl'], hpl'⟩
        · intro _
          rfl
      · constructor
        · intro hcon
          exact absurd hcon (by simp)
        · rintro ⟨l', hl', hpl'⟩
          rcases List.mem_cons.mp hl' with rfl | hl''
          · rw [hp] at hpl'
            exact absurd hpl' (by simp)
          · have : fixLines ls = none := ih.mpr ⟨l', hl'', hpl'⟩
            rw [hr] at this
            exact absurd this (by simp)

/-! ### Claims -/

/-- C1 (counterexample): a line whose first whitespace token is `ATOMIC`
(not exactly `ATOM`) and that has at least 11 tokens is NOT copied
unchanged — the code tests `startswith('ATOM')`, so it reformats it. -/
theorem c1_counterexample :
    (pySplit ("ATOMIC 1 N MET A 1 10.0 20.0 30.0 1.00 20.00 N\n".toList)).headD [] =
        ("ATOMIC".toList) ∧
      processLine ("ATOMIC 1 N MET A 1 10.0 20.0 30.0 1.00 20.00 N\n".toList) ≠
        some ("ATOMIC 1 N MET A 1 10.0 20.0 30.0 1.00 20.00 N\n".toList) := by
  constructor
  · decide
  · decide

/-- C1 (amended): a line is reformatted if and only if it STARTS WITH the
characters `ATOM` or `HETATM` (a prefix test, so e.g. `ATOMIC ...` also
qualifies) and splits into at least 11 whitespace tokens; every other line
is copied to the output unchanged. -/
theorem c1_prefix_rule (line : List Char) :
    processLine line =
      (if (List.isPrefixOf ("ATOM".toList) line ||
            List.isPrefixOf ("HETATM".toList) line) &&
          decide (11 ≤ (pySplit line).length)
       then formatParts (pySplit line)
       else some line) := by
  unfold processLine hasCoordTag
  by_cases h1 : (List.isPrefixOf ("ATOM".toList) line ||
      List.isPrefixOf ("HETATM".toList) line) = true
  · rw [h1]
    by_cases h2 : 11 ≤ (pySplit line).length
    · simp [h2]
    · simp [h2]
  · have h1' : (List.isPrefixOf ("ATOM".toList) line ||
        List.isPrefixOf ("HETATM".toList) line) = false :=
      Bool.eq_false_iff.mpr h1
    rw [h1']
    simp

/-- C3: the run fails exactly when some line has the `ATOM`/`HETATM`
prefix, splits into at least 11 tokens (the `∃`-shape below), and one of
the 7th–11th tokens (x, y, z, occupancy, B-factor) is not a valid
floating-point literal; the failure aborts the whole run, and a line with
fewer than 11 tokens never causes an error. -/
theorem c3_error_iff :
    (∀ line : List Char,
        processLine line = none ↔
          hasCoordTag line = true ∧
            ∃ rt an nm rn ch rs xs ys zs os bs rest,
              pySplit line =
                rt :: an :: nm :: rn :: ch :: rs :: xs :: ys :: zs :: os :: bs :: rest ∧
              (parsePy xs = none ∨ parsePy ys = none ∨ parsePy zs = none ∨
                parsePy os = none ∨ parsePy bs = none)) ∧
    (∀ ls : List (List Char), fixLines ls = none ↔ ∃ l ∈ ls, processLine l = none) ∧
    (∀ line : List Char, (pySplit line).length < 11 → processLine line ≠ none) := by
  refine ⟨?_, fixLines_none_iff, ?_⟩
  · intro line
    constructor
    · intro h
      by_cases htag : hasCoordTag line = true
      · by_cases hlen : 11 ≤ (pySplit line).length
        · obtain ⟨rt, an, nm, rn, ch, rs, xs, ys, zs, os, bs, rest, hsp⟩ :=
            exists_cons11 _ hlen
          rw [processLine_qual line htag hlen, hsp] at h
          exact ⟨htag, rt, an, nm, rn, ch, rs, xs, ys, zs, os, bs, rest, hsp,
            (formatParts_none_iff _ _ _ _ _ _ _ _ _ _ _ _).mp h⟩
        · rw [processLine_short line htag (by omega)] at h
          exact absurd h (by simp)
      · rw [processLine_not_tag line (by simpa using htag)] at h
        exact absurd h (by simp)
    · rintro ⟨htag, rt, an, nm, rn, ch, rs, xs, ys, zs, os, bs, rest, hsp, hdisj⟩
      have hlen : 11 ≤ (pySplit line).length := by rw [hsp]; simp
      rw [processLine_qual line htag hlen, hsp]
      exact (formatParts_none_iff _ _ _ _ _ _ _ _ _ _ _ _).mpr hdisj
  · intro line hlt
    by_cases htag : hasCoordTag line = true
    · rw [processLine_short line htag hlt]
      simp
    · rw [processLine_not_tag line (by simpa using htag)]
      simp

/-- C3 (witness): a qualifying-prefix line with fewer than 11 tokens never
errors. -/
theorem c3_witness : processLine ("ATOM 1 N MET\n".toList) ≠ none :=
  c3_error_iff.2.2 ("ATOM 1 N MET\n".toList) (by decide)

/-- C4: any line without the `ATOM`/`HETATM` prefix, and any line with
fewer than 11 whitespace tokens, is written to the output byte-identical
to the input, its line terminator included (the raw line, terminator and
all, is the value passed through). -/
theorem c4_passthrough (line : List Char)
    (h : hasCoordTag line = false ∨ (pySplit line).length < 11) :
    processLine line = some line := by
  rcases h with h | h
  · exact processLine_not_tag line h
  · by_cases h1 : hasCoordTag line = true
    · exact processLine_short line h1 h
    · exact processLine_not_tag line (by simpa using h1)

/-- C4 (witness): a `HEADER` line and an under-length `ATOM` line pass
through unchanged. -/
theorem c4_witness :
    processLine ("HEADER protein structure\n".toList) =
        some ("HEADER protein structure\n".toList) ∧
      processLine ("ATOM 1 N MET A 1 10.0 20.0\n".toList) =
        some ("ATOM 1 N MET A 1 10.0 20.0\n".toList) :=
  ⟨c4_passthrough _ (Or.inl (by decide)), c4_passthrough _ (Or.inr (by decide))⟩

/-- C6: on success the output has exactly one line per input line, in
order: the i-th output line is the processing result of the i-th input
line. -/
theorem c6_line_map (ls : List (List Char)) :
    ∀ out, fixLines ls = some out →
      out.length = ls.length ∧
        ∀ i, i < ls.length → processLine (ls.getD i []) = some (out.getD i []) := by
  induction ls with
  | nil =>
    intro out h
    obtain rfl : ([] : List (List Char)) = out := Option.some.inj h
    refine ⟨rfl, ?_⟩
    intro i hi
    simp at hi
  | cons l ls ih =>
    intro out h
    rw [fixLines_cons_eq] at h
    rcases hp : processLine l with _ | o <;> rw [hp] at h
    · simp at h
    rcases hr : fixLines ls with _ | os <;> rw [hr] at h
    · simp at h
    obtain rfl : o :: os = out := Option.some.inj h
    obtain ⟨hlen, hidx⟩ := ih os hr
    refine ⟨by simp [hlen], ?_⟩
    intro i hi
    cases i with
    | zero => simpa using hp
    | succ j =>
      simp only [List.getD_cons_succ]
      exact hidx j (by simpa using hi)

/-- C6 (witness): a two-line file maps position by position. -/
theorem c6_witness :
    (["HEADER x\n".toList,
      "ATOM      1 N    MET A   1      10.000  20.000  30.000  1.00 20.00           N\n".toList] :
        List (List Char)).length =
      (["HEADER x\n".toList,
        "ATOM 1 N MET A 1 10.0 20.0 30.0 1.00 20.00 N\n".toList] :
          List (List Char)).length ∧
    ∀ i, i < (["HEADER x\n".toList,
        "ATOM 1 N MET A 1 10.0 20.0 30.0 1.00 20.00 N\n".toList] :
          List (List Char)).length →
      processLine ((["HEADER x\n".toList,
          "ATOM 1 N MET A 1 10.0 20.0 30.0 1.00 20.00 N\n".toList] :
            List (List Char)).getD i []) =
        some ((["HEADER x\n".toList,
            "ATOM      1 N    MET A   1      10.000  20.000  30.000  1.00 20.00           N\n".toList] :
              List (List Char)).getD i []) :=
  c6_line_map _ _ (by decide)

/-- C7: on a qualifying line a numeric token `1` renders as `1.000` in a
coordinate field and as `1.00` in the occupancy/B-factor fields,
right-justified in widths 8 and 6; a coordinate token `-12.3456` renders
as `-12.346`. -/
theorem c7_numeric_rendering :
    processLine ("ATOM 7 CA GLY B 2 1 -12.3456 3.5 1 1 C\n".toList) =
      some ("ATOM      7 CA   GLY B   2       1.000 -12.346   3.500  1.00  1.00           C\n".toList) ∧
    slice ("ATOM      7 CA   GLY B   2       1.000 -12.346   3.500  1.00  1.00           C\n".toList)
        30 8 = ("   1.000".toList) ∧
    slice ("ATOM      7 CA   GLY B   2       1.000 -12.346   3.500  1.00  1.00           C\n".toList)
        38 8 = (" -12.346".toList) ∧
    slice ("ATOM      7 CA   GLY B   2       1.000 -12.346   3.500  1.00  1.00           C\n".toList)
        54 6 = ("  1.00".toList) ∧
    slice ("ATOM      7 CA   GLY B   2       1.000 -12.346   3.500  1.00  1.00           C\n".toList)
        60 6 = ("  1.00".toList) := by
  refine ⟨by decide, by decide, by decide, by decide, by decide⟩

/-- C10: on a qualifying line the result depends only on the first 12
tokens — `rest.take 1` keeps at most the element token, and every later
token is discarded. -/
theorem c10_extra_tokens (line rt an nm rn ch rs xs ys zs os bs : List Char)
    (rest : List (List Char))
    (h1 : hasCoordTag line = true)
    (hsp : pySplit line =
      rt :: an :: nm :: rn :: ch :: rs :: xs :: ys :: zs :: os :: bs :: rest) :
    processLine line =
      formatParts (rt :: an :: nm :: rn :: ch :: rs :: xs :: ys :: zs :: os :: bs ::
        rest.take 1) := by
  have hlen : 11 ≤ (pySplit line).length := by rw [hsp]; simp
  rw [processLine_qual line h1 hlen, hsp, formatParts_cons_eq, formatParts_cons_eq]
  rw [show (rest.take 1).headD ([] : List Char) = rest.headD [] from
    by cases rest <;> rfl]

/-- C10 (witness): a 14-token line formats as if only its first 12 tokens
were present. -/
theorem c10_witness :
    processLine ("ATOM 1 N MET A 1 1.0 2.0 3.0 1.00 20.00 N extra1 extra2\n".toList) =
      formatParts ["ATOM".toList, "1".toList, "N".toList, "MET".toList,
        "A".toList, "1".toList, "1.0".toList, "2.0".toList, "3.0".toList,
        "1.00".toList, "20.00".toList, "N".toList] :=
  c10_extra_tokens ("ATOM 1 N MET A 1 1.0 2.0 3.0 1.00 20.00 N extra1 extra2\n".toList)
    ("ATOM".toList) ("1".toList) ("N".toList) ("MET".toList) ("A".toList)
    ("1".toList) ("1.0".toList) ("2.0".toList) ("3.0".toList) ("1.00".toList)
    ("20.00".toList) (["N".toList, "extra1".toList, "extra2".toList])
    (by decide) (by decide)

theorem fieldsLine_el_suffix (rt an nm rn ch rs el : List Char)
    (vx vy vz vo vb : DecLit) :
    ∃ p, fieldsLine rt an nm rn ch rs vx vy vz vo vb el =
      p ++ (padLeft el 2 ++ ['\n']) := by
  refine ⟨padRight rt 6 ++ padLeft an 5 ++ [' '] ++ padRight nm 4 ++ [' '] ++
    padLeft rn 3 ++ [' '] ++ padLeft ch 1 ++ padLeft rs 4 ++ rep 4 ++
    fmtFixed vx 8 3 ++ fmtFixed vy 8 3 ++ fmtFixed vz 8 3 ++ fmtFixed vo 6 2 ++
    fmtFixed vb 6 2 ++ rep 10, ?_⟩
  unfold fieldsLine
  simp only [List.append_assoc]

/-- C9: with exactly 11 tokens the element symbol is the empty string and
the emitted line ends in two spaces (the empty element field, columns
77–78 when all fields fit) before the newline; a 12th token is used as the
element symbol, right-justified in that two-column field. -/
theorem c9_element (line rt an nm rn ch rs xs ys zs os bs : List Char)
    (rest : List (List Char)) (vx vy vz vo vb : DecLit)
    (h1 : hasCoordTag line = true)
    (hsp : pySplit line =
      rt :: an :: nm :: rn :: ch :: rs :: xs :: ys :: zs :: os :: bs :: rest)
    (hx : parsePy xs = some vx) (hy : parsePy ys = some vy)
    (hz : parsePy zs = some vz) (ho : parsePy os = some vo)
    (hb : parsePy bs = some vb) :
    (rest = [] →
      processLine line = some (fieldsLine rt an nm rn ch rs vx vy vz vo vb []) ∧
      ∃ p, fieldsLine rt an nm rn ch rs vx vy vz vo vb [] =
        p ++ [' ', ' ', '\n']) ∧
    (∀ el rest2, rest = el :: rest2 →
      processLine line = some (fieldsLine rt an nm rn ch rs vx vy vz vo vb el) ∧
      ∃ p, fieldsLine rt an nm rn ch rs vx vy vz vo vb el =
        p ++ (padLeft el 2 ++ ['\n'])) := by
  have hlen : 11 ≤ (pySplit line).length := by rw [hsp]; simp
  have hq : processLine line =
      formatParts (rt :: an :: nm :: rn :: ch :: rs :: xs :: ys :: zs :: os :: bs :: rest) := by
    rw [processLine_qual line h1 hlen, hsp]
  constructor
  · intro hrest
    subst hrest
    constructor
    · rw [hq, formatParts_some _ _ _ _ _ _ _ _ _ _ _ _ _ _ _ _ _ hx hy hz ho hb]
      rfl
    · obtain ⟨p, hp⟩ := fieldsLine_el_suffix rt an nm rn ch rs [] vx vy vz vo vb
      refine ⟨p, ?_⟩
      rw [hp]
      rfl
  · intro el rest2 hrest
    subst hrest
    constructor
    · rw [hq, formatParts_some _ _ _ _ _ _ _ _ _ _ _ _ _ _ _ _ _ hx hy hz ho hb]
      rfl
    · exact fieldsLine_el_suffix rt an nm rn ch rs el vx vy vz vo vb

/-- C9 (witness): an 11-token line gets an empty element field ending in
two spaces; a 12-token line gets its 12th token as the element. -/
theorem c9_witness :
    (processLine ("ATOM 1 N MET A 1 10.0 20.0 30.0 1.00 20.00\n".toList) =
        some (fieldsLine ("ATOM".toList) ("1".toList) ("N".toList) ("MET".toList)
          ("A".toList) ("1".toList) ⟨100, -1⟩ ⟨200, -1⟩ ⟨300, -1⟩ ⟨100, -2⟩
          ⟨2000, -2⟩ []) ∧
      ∃ p, fieldsLine ("ATOM".toList) ("1".toList) ("N".toList) ("MET".toList)
          ("A".toList) ("1".toList) ⟨100, -1⟩ ⟨200, -1⟩ ⟨300, -1⟩ ⟨100, -2⟩
          ⟨2000, -2⟩ [] = p ++ [' ', ' ', '\n']) ∧
    (processLine ("ATOM 1 N MET A 1 10.0 20.0 30.0 1.00 20.00 N\n".toList) =
        some (fieldsLine ("ATOM".toList) ("1".toList) ("N".toList) ("MET".toList)
          ("A".toList) ("1".toList) ⟨100, -1⟩ ⟨200, -1⟩ ⟨300, -1⟩ ⟨100, -2⟩
          ⟨2000, -2⟩ ("N".toList)) ∧
      ∃ p, fieldsLine ("ATOM".toList) ("1".toList) ("N".toList) ("MET".toList)
          ("A".toList) ("1".toList) ⟨100, -1⟩ ⟨200, -1⟩ ⟨300, -1⟩ ⟨100, -2⟩
          ⟨2000, -2⟩ ("N".toList) = p ++ (padLeft ("N".toList) 2 ++ ['\n'])) :=
  ⟨(c9_element ("ATOM 1 N MET A 1 10.0 20.0 30.0 1.00 20.00\n".toList)
      ("ATOM".toList) ("1".toList) ("N".toList) ("MET".toList) ("A".toList)
      ("1".toList) ("10.0".toList) ("20.0".toList) ("30.0".toList)
      ("1.00".toList) ("20.00".toList) [] ⟨100, -1⟩ ⟨200, -1⟩ ⟨300, -1⟩
      ⟨100, -2⟩ ⟨2000, -2⟩ (by decide) (by decide) (by decide) (by decide)
      (by decide) (by decide) (by decide)).1 rfl,
   (c9_element ("ATOM 1 N MET A 1 10.0 20.0 30.0 1.00 20.00 N\n".toList)
      ("ATOM".toList) ("1".toList) ("N".toList) ("MET".toList) ("A".toList)
      ("1".toList) ("10.0".toList) ("20.0".toList) ("30.0".toList)
      ("1.00".toList) ("20.00".toList) [("N".toList)] ⟨100, -1⟩ ⟨200, -1⟩
      ⟨300, -1⟩ ⟨100, -2⟩ ⟨2000, -2⟩ (by decide) (by decide) (by decide)
      (by decide) (by decide) (by decide) (by decide)).2 ("N".toList) [] rfl⟩

/-- C8 (counterexample): the x token `1.23456789` is longer than its
8-column field, yet the full token string does NOT appear in the output —
the rendered value `1.235` replaces it, so "the full token string appears
in the output line" fails for numeric fields. -/
theorem c8_counterexample :
    processLine ("ATOM 1 N MET A 1 1.23456789 20.0 30.0 1.00 20.00 N\n".toList) =
      some ("ATOM      1 N    MET A   1       1.235  20.000  30.000  1.00 20.00           N\n".toList) ∧
    occursIn ("1.23456789".toList)
      ("ATOM      1 N    MET A   1       1.235  20.000  30.000  1.00 20.00           N\n".toList) = false := by
  refine ⟨by decide, by decide⟩

/-- C8 (amended): padding never clips — each string-valued token (record
type, serial, atom name, residue name, chain, residue number, element) is
emitted verbatim as a contiguous substring of the output, and each numeric
field's full fixed-point rendering (which may overflow its nominal width)
likewise appears untruncated. -/
theorem c8_no_truncation (line rt an nm rn ch rs xs ys zs os bs : List Char)
    (rest : List (List Char)) (vx vy vz vo vb : DecLit) (o : List Char)
    (h1 : hasCoordTag line = true)
    (hsp : pySplit line =
      rt :: an :: nm :: rn :: ch :: rs :: xs :: ys :: zs :: os :: bs :: rest)
    (hx : parsePy xs = some vx) (hy : parsePy ys = some vy)
    (hz : parsePy zs = some vz) (ho : parsePy os = some vo)
    (hb : parsePy bs = some vb)
    (hpl : processLine line = some o) :
    occursIn rt o = true ∧ occursIn an o = true ∧ occursIn nm o = true ∧
    occursIn rn o = true ∧ occursIn ch o = true ∧ occursIn rs o = true ∧
    occursIn (rest.headD []) o = true ∧
    occursIn (fmtBody vx 3) o = true ∧ occursIn (fmtBody vy 3) o = true ∧
    occursIn (fmtBody vz 3) o = true ∧ occursIn (fmtBody vo 2) o = true ∧
    occursIn (fmtBody vb 2) o = true := by
  have hlen : 11 ≤ (pySplit line).length := by rw [hsp]; simp
  rw [processLine_qual line h1 hlen, hsp,
    formatParts_some _ _ _ _ _ _ _ _ _ _ _ _ _ _ _ _ _ hx hy hz ho hb] at hpl
  obtain rfl : fieldsLine rt an nm rn ch rs vx vy vz vo vb (rest.headD []) = o :=
    Option.some.inj hpl
  rw [fieldsLine_decomp]
  refine ⟨?_, ?_, ?_, ?_, ?_, ?_, ?_, ?_, ?_, ?_, ?_, ?_⟩ <;>
    · repeat
        first
        | exact occursIn_head _ _
        | apply occursIn_append_right

/-- C8 (witness): every token of a concrete `HETATM` line occurs verbatim
in the output. -/
theorem c8_witness :
    occursIn ("HETATM".toList)
        ("HETATM   12 O    HOH B   5       1.500   2.500   3.500  0.50 10.00           O\n".toList) = true ∧
    occursIn ("12".toList)
        ("HETATM   12 O    HOH B   5       1.500   2.500   3.500  0.50 10.00           O\n".toList) = true ∧
    occursIn ("O".toList)
        ("HETATM   12 O    HOH B   5       1.500   2.500   3.500  0.50 10.00           O\n".toList) = true ∧
    occursIn ("HOH".toList)
        ("HETATM   12 O    HOH B   5       1.500   2.500   3.500  0.50 10.00           O\n".toList) = true ∧
    occursIn ("B".toList)
        ("HETATM   12 O    HOH B   5       1.500   2.500   3.500  0.50 10.00           O\n".toList) = true ∧
    occursIn ("5".toList)
        ("HETATM   12 O    HOH B   5       1.500   2.500   3.500  0.50 10.00           O\n".toList) = true ∧
    occursIn ("O".toList)
        ("HETATM   12 O    HOH B   5       1.500   2.500   3.500  0.50 10.00           O\n".toList) = true ∧
    occursIn (fmtBody ⟨15, -1⟩ 3)
        ("HETATM   12 O    HOH B   5       1.500   2.500   3.500  0.50 10.00           O\n".toList) = true ∧
    occursIn (fmtBody ⟨25, -1⟩ 3)
        ("HETATM   12 O    HOH B   5       1.500   2.500   3.500  0.50 10.00           O\n".toList) = true ∧
    occursIn (fmtBody ⟨35, -1⟩ 3)
        ("HETATM   12 O    HOH B   5       1.500   2.500   3.500  0.50 10.00           O\n".toList) = true ∧
    occursIn (fmtBody ⟨50, -2⟩ 2)
        ("HETATM   12 O    HOH B   5       1.500   2.500   3.500  0.50 10.00           O\n".toList) = true ∧
    occursIn (fmtBody ⟨1000, -2⟩ 2)
        ("HETATM   12 O    HOH B   5       1.500   2.500   3.500  0.50 10.00           O\n".toList) = true :=
  c8_no_truncation ("HETATM 12 O HOH B 5 1.5 2.5 3.5 0.50 10.00 O\n".toList)
    ("HETATM".toList) ("12".toList) ("O".toList) ("HOH".toList) ("B".toList)
    ("5".toList) ("1.5".toList) ("2.5".toList) ("3.5".toList) ("0.50".toList)
    ("10.00".toList) [("O".toList)] ⟨15, -1⟩ ⟨25, -1⟩ ⟨35, -1⟩ ⟨50, -2⟩
    ⟨1000, -2⟩
    ("HETATM   12 O    HOH B   5       1.500   2.500   3.500  0.50 10.00           O\n".toList)
    (by decide) (by decide) (by decide) (by decide) (by decide) (by decide)
    (by decide) (by decide)

/-- C5 (counterexample): a well-formed input whose token values all fit
their nominal field widths (x and y render as exactly 8 characters) is NOT
a fixed point: the first pass glues `1234.567` and `2345.678` into one
token `1234.5672345.678`, and the second pass fails on it. -/
theorem c5_counterexample :
    fixLines [("ATOM 1 N MET A 1 1234.567 2345.678 30.0 1.00 20.00 N\n".toList)] =
      some [("ATOM      1 N    MET A   1    1234.5672345.678  30.000  1.00 20.00           N\n".toList)] ∧
    (fmtBody ⟨1234567, -3⟩ 3).length = 8 ∧
    (fmtBody ⟨2345678, -3⟩ 3).length = 8 ∧
    fixLines [("ATOM      1 N    MET A   1    1234.5672345.678  30.000  1.00 20.00           N\n".toList)] =
      none := by
  refine ⟨by decide, by decide, by decide, by decide⟩

/-- C5 (amended): the aligner is idempotent on inputs whose qualifying
lines are strictly well-formed: all five numeric tokens parse, and every
field that abuts its left neighbour without a literal separating space is
strictly narrower than its width (serial ≤ 4 chars, residue number ≤ 3,
rendered y/z ≤ 7, rendered occupancy/B-factor ≤ 5).  Then a second run on
the output reproduces it byte for byte. -/
theorem c5_idempotent (ls : List (List Char)) :
    ∀ out, (∀ l ∈ ls, strictOK l = true) → fixLines ls = some out →
      fixLines out = some out := by
  induction ls with
  | nil =>
    intro out _ h
    obtain rfl : ([] : List (List Char)) = out := Option.some.inj h
    rfl
  | cons l ls ih =>
    intro out hok h
    rw [fixLines_cons_eq] at h
    rcases hp : processLine l with _ | o <;> rw [hp] at h
    · simp at h
    rcases hr : fixLines ls with _ | os <;> rw [hr] at h
    · simp at h
    obtain rfl : o :: os = out := Option.some.inj h
    rw [fixLines_cons_eq, processLine_idem l o (hok l (by simp)) hp,
      ih os (fun l' hl' => hok l' (by simp [hl'])) hr]

/-- C5 (witness): a strictly well-formed two-line file whose first-pass
output is reproduced by the second pass. -/
theorem c5_witness :
    fixLines
        [("ATOM      2 CA   MET A   1      11.104  13.207  10.567  1.00 55.06           C\n".toList),
         ("HEADER x\n".toList)] =
      some
        [("ATOM      2 CA   MET A   1      11.104  13.207  10.567  1.00 55.06           C\n".toList),
         ("HEADER x\n".toList)] :=
  c5_idempotent
    [("ATOM 2 CA MET A 1 11.104 13.207 10.567 1.00 55.06 C\n".toList),
     ("HEADER x\n".toList)]
    [("ATOM      2 CA   MET A   1      11.104  13.207  10.567  1.00 55.06           C\n".toList),
     ("HEADER x\n".toList)]
    (by decide) (by decide)

/-- C2: for a qualifying line whose token values fit their nominal field
widths, every field sits exactly at the 1-indexed column ranges of the
PDB layout: record type 1-6, serial 7-11, space 12, atom name 13-16,
space 17, residue name 18-20, space 21, chain 22, residue number 23-26,
spaces 27-30, x/y/z 31-38/39-46/47-54, occupancy 55-60, B-factor 61-66,
spaces 67-76, element 77-78, then a single newline. -/
theorem c2_columns (line rt an nm rn ch rs xs ys zs os bs : List Char)
    (rest : List (List Char)) (vx vy vz vo vb : DecLit) (o : List Char)
    (h1 : hasCoordTag line = true)
    (hsp : pySplit line =
      rt :: an :: nm :: rn :: ch :: rs :: xs :: ys :: zs :: os :: bs :: rest)
    (hx : parsePy xs = some vx) (hy : parsePy ys = some vy)
    (hz : parsePy zs = some vz) (ho : parsePy os = some vo)
    (hb : parsePy bs = some vb)
    (hlrt : rt.length ≤ 6) (hlan : an.length ≤ 5) (hlnm : nm.length ≤ 4)
    (hlrn : rn.length ≤ 3) (hlch : ch.length ≤ 1) (hlrs : rs.length ≤ 4)
    (hlx : (fmtBody vx 3).length ≤ 8) (hly : (fmtBody vy 3).length ≤ 8)
    (hlz : (fmtBody vz 3).length ≤ 8) (hlo : (fmtBody vo 2).length ≤ 6)
    (hlb : (fmtBody vb 2).length ≤ 6)
    (hlel : (rest.headD []).length ≤ 2)
    (hpl : processLine line = some o) :
    o.length = 79 ∧
    slice o 0 6 = padRight rt 6 ∧
    slice o 6 5 = padLeft an 5 ∧
    slice o 11 1 = [' '] ∧
    slice o 12 4 = padRight nm 4 ∧
    slice o 16 1 = [' '] ∧
    slice o 17 3 = padLeft rn 3 ∧
    slice o 20 1 = [' '] ∧
    slice o 21 1 = padLeft ch 1 ∧
    slice o 22 4 = padLeft rs 4 ∧
    slice o 26 4 = rep 4 ∧
    slice o 30 8 = fmtFixed vx 8 3 ∧
    slice o 38 8 = fmtFixed vy 8 3 ∧
    slice o 46 8 = fmtFixed vz 8 3 ∧
    slice o 54 6 = fmtFixed vo 6 2 ∧
    slice o 60 6 = fmtFixed vb 6 2 ∧
    slice o 66 10 = rep 10 ∧
    slice o 76 2 = padLeft (rest.headD []) 2 ∧
    slice o 78 1 = ['\n'] := by
  have hlen : 11 ≤ (pySplit line).length := by rw [hsp]; simp
  rw [processLine_qual line h1 hlen, hsp,
    formatParts_some _ _ _ _ _ _ _ _ _ _ _ _ _ _ _ _ _ hx hy hz ho hb] at hpl
  obtain rfl : fieldsLine rt an nm rn ch rs vx vy vz vo vb (rest.headD []) = o :=
    Option.some.inj hpl
  have L1 : (padRight rt 6).length = 6 := padRight_length_of_le hlrt
  have L2 : (padLeft an 5).length = 5 := padLeft_length_of_le hlan
  have L3 : ([' '] : List Char).length = 1 := rfl
  have L4 : (padRight nm 4).length = 4 := padRight_length_of_le hlnm
  have L5 : ([' '] : List Char).length = 1 := rfl
  have L6 : (padLeft rn 3).length = 3 := padLeft_length_of_le hlrn
  have L7 : ([' '] : List Char).length = 1 := rfl
  have L8 : (padLeft ch 1).length = 1 := padLeft_length_of_le hlch
  have L9 : (padLeft rs 4).length = 4 := padLeft_length_of_le hlrs
  have L10 : (rep 4).length = 4 := by simp [rep]
  have L11 : (fmtFixed vx 8 3).length = 8 := fmtFixed_length_of_le hlx
  have L12 : (fmtFixed vy 8 3).length = 8 := fmtFixed_length_of_le hly
  have L13 : (fmtFixed vz 8 3).length = 8 := fmtFixed_length_of_le hlz
  have L14 : (fmtFixed vo 6 2).length = 6 := fmtFixed_length_of_le hlo
  have L15 : (fmtFixed vb 6 2).length = 6 := fmtFixed_length_of_le hlb
  have L16 : (rep 10).length = 10 := by simp [rep]
  have L17 : (padLeft (rest.headD []) 2).length = 2 := padLeft_length_of_le hlel
  have L18 : (['\n'] : List Char).length = 1 := rfl
  have L17b : (padLeft (rest.head?.getD ([] : List Char)) 2).length = 2 := by
    rw [← List.headD_eq_head? rest ([] : List Char)]
    exact L17
  refine ⟨?_, ?_, ?_, ?_, ?_, ?_, ?_, ?_, ?_, ?_, ?_, ?_, ?_, ?_, ?_, ?_, ?_, ?_, ?_⟩
  · unfold fieldsLine
    simp [List.length_append, L1, L2, L3, L4, L5, L6, L7, L8, L9, L10, L11, L12, L13, L14, L15, L16, L17, L17b, L18]
  · exact slice_mid _ (([] : List Char)) (padRight rt 6) (padLeft an 5 ++ [' '] ++ padRight nm 4 ++ [' '] ++ padLeft rn 3 ++ [' '] ++ padLeft ch 1 ++ padLeft rs 4 ++ rep 4 ++ fmtFixed vx 8 3 ++ fmtFixed vy 8 3 ++ fmtFixed vz 8 3 ++ fmtFixed vo 6 2 ++ fmtFixed vb 6 2 ++ rep 10 ++ padLeft (rest.headD []) 2 ++ ['\n']) 0 6
      (by unfold fieldsLine; simp only [List.append_assoc, List.nil_append, List.append_nil])
      (by simp) L1
  · exact slice_mid _ (padRight rt 6) (padLeft an 5) ([' '] ++ padRight nm 4 ++ [' '] ++ padLeft rn 3 ++ [' '] ++ padLeft ch 1 ++ padLeft rs 4 ++ rep 4 ++ fmtFixed vx 8 3 ++ fmtFixed vy 8 3 ++ fmtFixed vz 8 3 ++ fmtFixed vo 6 2 ++ fmtFixed vb 6 2 ++ rep 10 ++ padLeft (rest.headD []) 2 ++ ['\n']) 6 5
      (by unfold fieldsLine; simp only [List.append_assoc, List.nil_append, List.append_nil])
      (by simp [List.length_append, L1]) L2
  · exact slice_mid _ (padRight rt 6 ++ padLeft an 5) ([' ']) (padRight nm 4 ++ [' '] ++ padLeft rn 3 ++ [' '] ++ padLeft ch 1 ++ padLeft rs 4 ++ rep 4 ++ fmtFixed vx 8 3 ++ fmtFixed vy 8 3 ++ fmtFixed vz 8 3 ++ fmtFixed vo 6 2 ++ fmtFixed vb 6 2 ++ rep 10 ++ padLeft (rest.headD []) 2 ++ ['\n']) 11 1
      (by unfold fieldsLine; simp only [List.append_assoc, List.nil_append, List.append_nil])
      (by simp [List.length_append, L1, L2]) L3
  · exact slice_mid _ (padRight rt 6 ++ padLeft an 5 ++ [' ']) (padRight nm 4) ([' '] ++ padLeft rn 3 ++ [' '] ++ padLeft ch 1 ++ padLeft rs 4 ++ rep 4 ++ fmtFixed vx 8 3 ++ fmtFixed vy 8 3 ++ fmtFixed vz 8 3 ++ fmtFixed vo 6 2 ++ fmtFixed vb 6 2 ++ rep 10 ++ padLeft (rest.headD []) 2 ++ ['\n']) 12 4
      (by unfold fieldsLine; simp only [List.append_assoc, List.nil_append, List.append_nil])
      (by simp [List.length_append, L1, L2, L3]) L4
  · exact slice_mid _ (padRight rt 6 ++ padLeft an 5 ++ [' '] ++ padRight nm 4) ([' ']) (padLeft rn 3 ++ [' '] ++ padLeft ch 1 ++ padLeft rs 4 ++ rep 4 ++ fmtFixed vx 8 3 ++ fmtFixed vy 8 3 ++ fmtFixed vz 8 3 ++ fmtFixed vo 6 2 ++ fmtFixed vb 6 2 ++ rep 10 ++ padLeft (rest.headD []) 2 ++ ['\n']) 16 1
      (by unfold fieldsLine; simp only [List.append_assoc, List.nil_append, List.append_nil])
      (by simp [List.length_append, L1, L2, L3, L4]) L5
  · exact slice_mid _ (padRight rt 6 ++ padLeft an 5 ++ [' '] ++ padRight nm 4 ++ [' ']) (padLeft rn 3) ([' '] ++ padLeft ch 1 ++ padLeft rs 4 ++ rep 4 ++ fmtFixed vx 8 3 ++ fmtFixed vy 8 3 ++ fmtFixed vz 8 3 ++ fmtFixed vo 6 2 ++ fmtFixed vb 6 2 ++ rep 10 ++ padLeft (rest.headD []) 2 ++ ['\n']) 17 3
      (by unfold fieldsLine; simp only [List.append_assoc, List.nil_append, List.append_nil])
      (by simp [List.length_append, L1, L2, L3, L4, L5]) L6
  · exact slice_mid _ (padRight rt 6 ++ padLeft an 5 ++ [' '] ++ padRight nm 4 ++ [' '] ++ padLeft rn 3) ([' ']) (padLeft ch 1 ++ padLeft rs 4 ++ rep 4 ++ fmtFixed vx 8 3 ++ fmtFixed vy 8 3 ++ fmtFixed vz 8 3 ++ fmtFixed vo 6 2 ++ fmtFixed vb 6 2 ++ rep 10 ++ padLeft (rest.headD []) 2 ++ ['\n']) 20 1
      (by unfold fieldsLine; simp only [List.append_assoc, List.nil_append, List.append_nil])
      (by simp [List.length_append, L1, L2, L3, L4, L5, L6]) L7
  · exact slice_mid _ (padRight rt 6 ++ padLeft an 5 ++ [' '] ++ padRight nm 4 ++ [' '] ++ padLeft rn 3 ++ [' ']) (padLeft ch 1) (padLeft rs 4 ++ rep 4 ++ fmtFixed vx 8 3 ++ fmtFixed vy 8 3 ++ fmtFixed vz 8 3 ++ fmtFixed vo 6 2 ++ fmtFixed vb 6 2 ++ rep 10 ++ padLeft (rest.headD []) 2 ++ ['\n']) 21 1
      (by unfold fieldsLine; simp only [List.append_assoc, List.nil_append, List.append_nil])
      (by simp [List.length_append, L1, L2, L3, L4, L5, L6, L7]) L8
  · exact slice_mid _ (padRight rt 6 ++ padLeft an 5 ++ [' '] ++ padRight nm 4 ++ [' '] ++ padLeft rn 3 ++ [' '] ++ padLeft ch 1) (padLeft rs 4) (rep 4 ++ fmtFixed vx 8 3 ++ fmtFixed vy 8 3 ++ fmtFixed vz 8 3 ++ fmtFixed vo 6 2 ++ fmtFixed vb 6 2 ++ rep 10 ++ padLeft (rest.headD []) 2 ++ ['\n']) 22 4
      (by unfold fieldsLine; simp only [List.append_assoc, List.nil_append, List.append_nil])
      (by simp [List.length_append, L1, L2, L3, L4, L5, L6, L7, L8]) L9
  · exact slice_mid _ (padRight rt 6 ++ padLeft an 5 ++ [' '] ++ padRight nm 4 ++ [' '] ++ padLeft rn 3 ++ [' '] ++ padLeft ch 1 ++ padLeft rs 4) (rep 4) (fmtFixed vx 8 3 ++ fmtFixed vy 8 3 ++ fmtFixed vz 8 3 ++ fmtFixed vo 6 2 ++ fmtFixed vb 6 2 ++ rep 10 ++ padLeft (rest.headD []) 2 ++ ['\n']) 26 4
      (by unfold fieldsLine; simp only [List.append_assoc, List.nil_append, List.append_nil])
      (by simp [List.length_append, L1, L2, L3, L4, L5, L6, L7, L8, L9]) L10
  · exact slice_mid _ (padRight rt 6 ++ padLeft an 5 ++ [' '] ++ padRight nm 4 ++ [' '] ++ padLeft rn 3 ++ [' '] ++ padLeft ch 1 ++ padLeft rs 4 ++ rep 4) (fmtFixed vx 8 3) (fmtFixed vy 8 3 ++ fmtFixed vz 8 3 ++ fmtFixed vo 6 2 ++ fmtFixed vb 6 2 ++ rep 10 ++ padLeft (rest.headD []) 2 ++ ['\n']) 30 8
      (by unfold fieldsLine; simp only [List.append_assoc, List.nil_append, List.append_nil])
      (by simp [List.length_append, L1, L2, L3, L4, L5, L6, L7, L8, L9, L10]) L11
  · exact slice_mid _ (padRight rt 6 ++ padLeft an 5 ++ [' '] ++ padRight nm 4 ++ [' '] ++ padLeft rn 3 ++ [' '] ++ padLeft ch 1 ++ padLeft rs 4 ++ rep 4 ++ fmtFixed vx 8 3) (fmtFixed vy 8 3) (fmtFixed vz 8 3 ++ fmtFixed vo 6 2 ++ fmtFixed vb 6 2 ++ rep 10 ++ padLeft (rest.headD []) 2 ++ ['\n']) 38 8
      (by unfold fieldsLine; simp only [List.append_assoc, List.nil_append, List.append_nil])
      (by simp [List.length_append, L1, L2, L3, L4, L5, L6, L7, L8, L9, L10, L11]) L12
  · exact slice_mid _ (padRight rt 6 ++ padLeft an 5 ++ [' '] ++ padRight nm 4 ++ [' '] ++ padLeft rn 3 ++ [' '] ++ padLeft ch 1 ++ padLeft rs 4 ++ rep 4 ++ fmtFixed vx 8 3 ++ fmtFixed vy 8 3) (fmtFixed vz 8 3) (fmtFixed vo 6 2 ++ fmtFixed vb 6 2 ++ rep 10 ++ padLeft (rest.headD []) 2 ++ ['\n']) 46 8
      (by unfold fieldsLine; simp only [List.append_assoc, List.nil_append, List.append_nil])
      (by simp [List.length_append, L1, L2, L3, L4, L5, L6, L7, L8, L9, L10, L11, L12]) L13
  · exact slice_mid _ (padRight rt 6 ++ padLeft an 5 ++ [' '] ++ padRight nm 4 ++ [' '] ++ padLeft rn 3 ++ [' '] ++ padLeft ch 1 ++ padLeft rs 4 ++ rep 4 ++ fmtFixed vx 8 3 ++ fmtFixed vy 8 3 ++ fmtFixed vz 8 3) (fmtFixed vo 6 2) (fmtFixed vb 6 2 ++ rep 10 ++ padLeft (rest.headD []) 2 ++ ['\n']) 54 6
      (by unfold fieldsLine; simp only [List.append_assoc, List.nil_append, List.append_nil])
      (by simp [List.length_append, L1, L2, L3, L4, L5, L6, L7, L8, L9, L10, L11, L12, L13]) L14
  · exact slice_mid _ (padRight rt 6 ++ padLeft an 5 ++ [' '] ++ padRight nm 4 ++ [' '] ++ padLeft rn 3 ++ [' '] ++ padLeft ch 1 ++ padLeft rs 4 ++ rep 4 ++ fmtFixed vx 8 3 ++ fmtFixed vy 8 3 ++ fmtFixed vz 8 3 ++ fmtFixed vo 6 2) (fmtFixed vb 6 2) (rep 10 ++ padLeft (rest.headD []) 2 ++ ['\n']) 60 6
      (by unfold fieldsLine; simp only [List.append_assoc, List.nil_append, List.append_nil])
      (by simp [List.length_append, L1, L2, L3, L4, L5, L6, L7, L8, L9, L10, L11, L12, L13, L14]) L15
  · exact slice_mid _ (padRight rt 6 ++ padLeft an 5 ++ [' '] ++ padRight nm 4 ++ [' '] ++ padLeft rn 3 ++ [' '] ++ padLeft ch 1 ++ padLeft rs 4 ++ rep 4 ++ fmtFixed vx 8 3 ++ fmtFixed vy 8 3 ++ fmtFixed vz 8 3 ++ fmtFixed vo 6 2 ++ fmtFixed vb 6 2) (rep 10) (padLeft (rest.headD []) 2 ++ ['\n']) 66 10
      (by unfold fieldsLine; simp only [List.append_assoc, List.nil_append, List.append_nil])
      (by simp [List.length_append, L1, L2, L3, L4, L5, L6, L7, L8, L9, L10, L11, L12, L13, L14, L15]) L16
  · exact slice_mid _ (padRight rt 6 ++ padLeft an 5 ++ [' '] ++ padRight nm 4 ++ [' '] ++ padLeft rn 3 ++ [' '] ++ padLeft ch 1 ++ padLeft rs 4 ++ rep 4 ++ fmtFixed vx 8 3 ++ fmtFixed vy 8 3 ++ fmtFixed vz 8 3 ++ fmtFixed vo 6 2 ++ fmtFixed vb 6 2 ++ rep 10) (padLeft (rest.headD []) 2) (['\n']) 76 2
      (by unfold fieldsLine; simp only [List.append_assoc, List.nil_append, List.append_nil])
      (by simp [List.length_append, L1, L2, L3, L4, L5, L6, L7, L8, L9, L10, L11, L12, L13, L14, L15, L16]) L17
  · exact slice_mid _ (padRight rt 6 ++ padLeft an 5 ++ [' '] ++ padRight nm 4 ++ [' '] ++ padLeft rn 3 ++ [' '] ++ padLeft ch 1 ++ padLeft rs 4 ++ rep 4 ++ fmtFixed vx 8 3 ++ fmtFixed vy 8 3 ++ fmtFixed vz 8 3 ++ fmtFixed vo 6 2 ++ fmtFixed vb 6 2 ++ rep 10 ++ padLeft (rest.headD []) 2) (['\n']) (([] : List Char)) 78 1
      (by unfold fieldsLine; simp only [List.append_assoc, List.nil_append, List.append_nil])
      (by simp [List.length_append, L1, L2, L3, L4, L5, L6, L7, L8, L9, L10, L11, L12, L13, L14, L15, L16, L17, L17b]) L18

/-- C2 (witness): the spec example line lands every field on its exact
columns. -/
theorem c2_witness :
    ("ATOM      1 N    MET A   1      10.000  20.000  30.000  1.00 20.00           N\n".toList).length = 79 ∧
    slice ("ATOM      1 N    MET A   1      10.000  20.000  30.000  1.00 20.00           N\n".toList) 0 6 = padRight ("ATOM".toList) 6 ∧
    slice ("ATOM      1 N    MET A   1      10.000  20.000  30.000  1.00 20.00           N\n".toList) 6 5 = padLeft ("1".toList) 5 ∧
    slice ("ATOM      1 N    MET A   1      10.000  20.000  30.000  1.00 20.00           N\n".toList) 11 1 = [' '] ∧
    slice ("ATOM      1 N    MET A   1      10.000  20.000  30.000  1.00 20.00           N\n".toList) 12 4 = padRight ("N".toList) 4 ∧
    slice ("ATOM      1 N    MET A   1      10.000  20.000  30.000  1.00 20.00           N\n".toList) 16 1 = [' '] ∧
    slice ("ATOM      1 N    MET A   1      10.000  20.000  30.000  1.00 20.00           N\n".toList) 17 3 = padLeft ("MET".toList) 3 ∧
    slice ("ATOM      1 N    MET A   1      10.000  20.000  30.000  1.00 20.00           N\n".toList) 20 1 = [' '] ∧
    slice ("ATOM      1 N    MET A   1      10.000  20.000  30.000  1.00 20.00           N\n".toList) 21 1 = padLeft ("A".toList) 1 ∧
    slice ("ATOM      1 N    MET A   1      10.000  20.000  30.000  1.00 20.00           N\n".toList) 22 4 = padLeft ("1".toList) 4 ∧
    slice ("ATOM      1 N    MET A   1      10.000  20.000  30.000  1.00 20.00           N\n".toList) 26 4 = rep 4 ∧
    slice ("ATOM      1 N    MET A   1      10.000  20.000  30.000  1.00 20.00           N\n".toList) 30 8 = fmtFixed ⟨100, -1⟩ 8 3 ∧
    slice ("ATOM      1 N    MET A   1      10.000  20.000  30.000  1.00 20.00           N\n".toList) 38 8 = fmtFixed ⟨200, -1⟩ 8 3 ∧
    slice ("ATOM      1 N    MET A   1      10.000  20.000  30.000  1.00 20.00           N\n".toList) 46 8 = fmtFixed ⟨300, -1⟩ 8 3 ∧
    slice ("ATOM      1 N    MET A   1      10.000  20.000  30.000  1.00 20.00           N\n".toList) 54 6 = fmtFixed ⟨100, -2⟩ 6 2 ∧
    slice ("ATOM      1 N    MET A   1      10.000  20.000  30.000  1.00 20.00           N\n".toList) 60 6 = fmtFixed ⟨2000, -2⟩ 6 2 ∧
    slice ("ATOM      1 N    MET A   1      10.000  20.000  30.000  1.00 20.00           N\n".toList) 66 10 = rep 10 ∧
    slice ("ATOM      1 N    MET A   1      10.000  20.000  30.000  1.00 20.00           N\n".toList) 76 2 = padLeft (([("N".toList)] : List (List Char)).headD []) 2 ∧
    slice ("ATOM      1 N    MET A   1      10.000  20.000  30.000  1.00 20.00           N\n".toList) 78 1 = ['\n'] :=
  c2_columns ("ATOM 1 N MET A 1 10.0 20.0 30.0 1.00 20.00 N\n".toList) ("ATOM".toList) ("1".toList) ("N".toList)
    ("MET".toList) ("A".toList) ("1".toList) ("10.0".toList)
    ("20.0".toList) ("30.0".toList) ("1.00".toList) ("20.00".toList)
    [("N".toList)] ⟨100, -1⟩ ⟨200, -1⟩ ⟨300, -1⟩ ⟨100, -2⟩ ⟨2000, -2⟩
    ("ATOM      1 N    MET A   1      10.000  20.000  30.000  1.00 20.00           N\n".toList)
    (by decide) (by decide) (by decide) (by decide) (by decide) (by decide)
    (by decide) (by decide) (by decide) (by decide) (by decide) (by decide)
    (by decide) (by decide) (by decide) (by decide) (by decide) (by decide)
    (by decide) (by decide)

end PdbAlign
